import Mathlib

/-!
# Verification of `merge_config_with_default` (src/memos/mem_cube/utils.py)

The source function converts two pydantic configuration records to JSON
dictionaries (`model_dump(mode="json")`), merges them with a fixed set of
field-preservation rules, and re-validates the merged dictionary
(`model_validate`).  We embed the dictionary-level merge shallowly:

* `JVal` is the type of JSON values produced by `model_dump(mode="json")`;
  `Dict` is a Python `dict` with string keys, modelled as an association
  list with Python-dict access semantics (keys are unique in real dicts;
  all operations here consistently use the first occurrence).
* `mergedGraphConfig`, `preservedGraphDb`, `preserveFold`, `restoreGraph`
  and `merge_dicts` embed the body of `merge_config_with_default` between
  the two pydantic calls, line by line.  Python `TypeError`/`KeyError`
  raised by attribute/subscript access on malformed trees is modelled by
  `Except String`; a membership test on a non-mapping value (possible only
  for schema-invalid inputs, which pydantic rules out) is likewise
  modelled as a type error.
* `merge_config_with_default` wraps the dictionary merge between
  `model_dump` and `model_validate`, which belong to the external pydantic
  library and are therefore kept abstract as a `ConfigModel` parameter.

A second, heap-based embedding (`mergeImp`, further below) models Python's
in-place dictionary mutation explicitly and is used for the frame property
(the inputs are never mutated).
-/

set_option autoImplicit false

namespace MemCube

/-- JSON values, as produced by `model_dump(mode="json")`. -/
inductive JVal where
  | null : JVal
  | bool : Bool → JVal
  | num : Int → JVal
  | str : String → JVal
  | arr : List JVal → JVal
  | obj : List (String × JVal) → JVal

/-- A Python `dict` with string keys (association list; real dicts have
unique keys, and every operation below consistently uses the first
occurrence of a key). -/
abbrev Dict := List (String × JVal)

/-- `d[k]` lookup result: the value at the first occurrence of `k`. -/
def dictGet? (d : Dict) (k : String) : Option JVal :=
  (d.find? (fun kv => kv.1 = k)).map (·.2)

/-- `k in d`. -/
def dictMem (d : Dict) (k : String) : Bool :=
  (dictGet? d k).isSome

/-- `d.get(k, v)`. -/
def dictGetD (d : Dict) (k : String) (v : JVal) : JVal :=
  (dictGet? d k).getD v

/-- `d[k] = v`: replace the value at `k` if present, else append. -/
def dictSet : Dict → String → JVal → Dict
  | [], k, v => [(k, v)]
  | kv :: rest, k, v =>
      if kv.1 = k then (k, v) :: rest else kv :: dictSet rest k v

/-- Python truthiness of a JSON value (`not x` / `if x`). -/
def truthy : JVal → Bool
  | .null => false
  | .bool b => b
  | .num n => n != 0
  | .str s => s ≠ ""
  | .arr xs => !xs.isEmpty
  | .obj fs => !fs.isEmpty

/-- Attribute/subscript use of a value as a mapping; anything else raises
a Python `TypeError`/`AttributeError`. -/
def asObj? : JVal → Except String Dict
  | .obj d => .ok d
  | _ => .error "TypeError"

/-- `d[k]`: raises `KeyError` when the key is absent. -/
def getItem (d : Dict) (k : String) : Except String JVal :=
  match dictGet? d k with
  | some v => .ok v
  | none => .error "KeyError"

/-- `preserve_fields = {"user_id", "cube_id", "config_filename", "model_schema"}`. -/
def preserve_fields : List String :=
  ["user_id", "cube_id", "config_filename", "model_schema"]

/-- `preserve_graph_fields = {"auto_create", "user_name", "use_multi_db"}`. -/
def preserve_graph_fields : List String :=
  ["auto_create", "user_name", "use_multi_db"]

/-- The per-key overwrite loop:
`for key, value in default_graph_config.items(): if key not in preserve_graph_fields: merged_graph_config[key] = value`,
starting from `merged_graph_config = copy.deepcopy(existing_graph_config)`
(deep copy is the identity on immutable values). -/
def graphLoop (existing_graph_config default_graph_config : Dict) : Dict :=
  default_graph_config.foldl
    (fun m kv => if kv.1 ∈ preserve_graph_fields then m else dictSet m kv.1 kv.2)
    existing_graph_config

/-- The merged graph-db `config` dictionary: the overwrite loop followed by
the derived-field (multi-db downgrade) rule. -/
def mergedGraphConfig (existing_graph_config default_graph_config : Dict) : Dict :=
  let m0 := graphLoop existing_graph_config default_graph_config
  if !truthy (dictGetD default_graph_config "use_multi_db" (.bool true)) then
    if truthy (dictGetD m0 "use_multi_db" (.bool true)) then
      let m1 := dictSet m0 "use_multi_db" (.bool false)
      let m2 := dictSet m1 "user_name" (dictGetD m1 "db_name" .null)
      dictSet m2 "db_name" (dictGetD default_graph_config "db_name" .null)
    else m0
  else m0

/-- Lines 63–99 of the source: compute `preserved_graph_db`
(`none` models Python `None`). -/
def preservedGraphDb (existing_dict default_dict : Dict) :
    Except String (Option Dict) :=
  if dictMem existing_dict "text_mem" && dictMem default_dict "text_mem" then do
    let etm ← asObj? (← getItem existing_dict "text_mem")
    let existing_text_config ← asObj? (dictGetD etm "config" (.obj []))
    let dtm ← asObj? (← getItem default_dict "text_mem")
    let default_text_config ← asObj? (dictGetD dtm "config" (.obj []))
    if dictMem existing_text_config "graph_db" &&
        dictMem default_text_config "graph_db" then do
      let egd ← asObj? (← getItem existing_text_config "graph_db")
      let existing_graph_config ← asObj? (← getItem egd "config")
      let dgd ← asObj? (← getItem default_text_config "graph_db")
      let default_graph_config ← asObj? (← getItem dgd "config")
      let merged := mergedGraphConfig existing_graph_config default_graph_config
      let backend ← getItem egd "backend"
      pure (some [("backend", backend), ("config", .obj merged)])
    else pure none
  else pure none

/-- Lines 104–108: `for field in preserve_fields: if field in existing_dict:
merged_dict[field] = existing_dict[field]`, starting from
`merged_dict = copy.deepcopy(default_dict)`. -/
def preserveFold (existing_dict base : Dict) : Dict :=
  preserve_fields.foldl
    (fun m field =>
      if dictMem existing_dict field then
        dictSet m field (dictGetD existing_dict field .null)
      else m)
    base

/-- Lines 110–113: `if preserved_graph_db and "text_mem" in merged_dict:
merged_dict["text_mem"]["config"]["graph_db"] = preserved_graph_db`
(the preserved dict, when present, has two entries and is always truthy). -/
def restoreGraph (merged_dict : Dict) (preserved_graph_db : Option Dict) :
    Except String Dict :=
  match preserved_graph_db with
  | some pgd =>
      if dictMem merged_dict "text_mem" then do
        let tmObj ← asObj? (← getItem merged_dict "text_mem")
        let cfgObj ← asObj? (← getItem tmObj "config")
        let cfgObj2 := dictSet cfgObj "graph_db" (.obj pgd)
        let tmObj2 := dictSet tmObj "config" (.obj cfgObj2)
        pure (dictSet merged_dict "text_mem" (.obj tmObj2))
      else pure merged_dict
  | none => pure merged_dict

/-- The dictionary-level body of `merge_config_with_default`: everything
between `model_dump` and `model_validate`. -/
def merge_dicts (existing_dict default_dict : Dict) : Except String Dict := do
  let preserved_graph_db ← preservedGraphDb existing_dict default_dict
  restoreGraph (preserveFold existing_dict default_dict) preserved_graph_db

/-- The external pydantic interface of `GeneralMemCubeConfig`: `model_dump`
produces the JSON dictionary of a record and `model_validate` re-validates
a dictionary, raising a `ValidationError` on failure. -/
structure ConfigModel (Cfg : Type) where
  model_dump : Cfg → Dict
  model_validate : Dict → Except String Cfg

/-- `merge_config_with_default`: dump both inputs, merge the dictionaries,
validate the merged tree.  Exceptions propagate to the caller. -/
def merge_config_with_default {Cfg : Type} (M : ConfigModel Cfg)
    (existing_config default_config : Cfg) : Except String Cfg := do
  let existing_dict := M.model_dump existing_config
  let default_dict := M.model_dump default_config
  let merged_dict ← merge_dicts existing_dict default_dict
  M.model_validate merged_dict

/-! Navigation helpers used to *state* the claims: extract the
`text_mem.config.graph_db` section of a dictionary exactly the way the
source navigates to it. -/

/-- A mapping value, if the value is one. -/
def asObjO : JVal → Option Dict
  | .obj d => some d
  | _ => none

/-- The `text_mem.config.graph_db` tagged-union dictionary of a config
dictionary, when present. -/
def graphPartsOf (x : Dict) : Option Dict := do
  let tm ← dictGet? x "text_mem"
  let tmObj ← asObjO tm
  let tcfgObj ← asObjO (dictGetD tmObj "config" (.obj []))
  let gd ← dictGet? tcfgObj "graph_db"
  asObjO gd

/-- The `text_mem.config.graph_db.config` dictionary, when present. -/
def graphCfgOf (x : Dict) : Option Dict := do
  let gdObj ← graphPartsOf x
  asObjO (← dictGet? gdObj "config")

/-- The `text_mem.config.graph_db.backend` tag, when present. -/
def graphBackendOf (x : Dict) : Option JVal := do
  let gdObj ← graphPartsOf x
  dictGet? gdObj "backend"

/-- Keys of a real Python dict are unique. -/
def KeysNodup (d : Dict) : Prop := (d.map Prod.fst).Nodup

instance (d : Dict) : Decidable (KeysNodup d) := by
  unfold KeysNodup; infer_instance

/-- Run a merge and extract a value from the merged dictionary (used for
closed counterexample statements). -/
def okThen (x : Except String Dict) (f : Dict → Option JVal) : Option JVal :=
  match x with
  | .ok m => f m
  | .error _ => none

/-! ## C5: default propagation, stated via a scrubbing function

Outside the four identity fields and the `text_mem.config.graph_db`
section, the merge changes nothing relative to the default dictionary.
`scrub` removes exactly the parts the merge is allowed to touch — the
top-level identity keys and the `graph_db` entry of `text_mem.config` —
so the claim is `scrub merged = scrub default`. -/

/-- Remove every entry with the given key. -/
def eraseKey : Dict → String → Dict
  | [], _ => []
  | kv :: rest, k =>
      if kv.1 = k then eraseKey rest k else kv :: eraseKey rest k

/-- Apply `g` to the value of every entry with the given key. -/
def mapAtKey (key : String) (g : JVal → JVal) (c : Dict) : Dict :=
  c.map (fun kv => if kv.1 = key then (kv.1, g kv.2) else kv)

/-- Drop the `graph_db` entry of a `text_mem.config` object. -/
def scrubCfg : JVal → JVal
  | .obj c => .obj (eraseKey c "graph_db")
  | v => v

/-- Drop the `graph_db` entry inside a `text_mem` object's `config`. -/
def scrubTM : JVal → JVal
  | .obj tm => .obj (mapAtKey "config" scrubCfg tm)
  | v => v

/-- Remove the identity fields and the `text_mem.config.graph_db` entry. -/
def scrub (m : Dict) : Dict :=
  mapAtKey "text_mem" scrubTM (preserve_fields.foldl eraseKey m)

/-! ## Concrete example configurations -/

/-- Helper: a config dictionary whose `text_mem.config.graph_db` section
has the given backend and graph config, with optional extra top-level
fields. -/
def withGraph (top : Dict) (backend : String) (gc : Dict) : Dict :=
  top ++ [("text_mem", .obj [("backend", .str "tree_text"),
    ("config", .obj [("graph_db",
      .obj [("backend", .str backend), ("config", .obj gc)])])])]

/-- C1 example, existing graph config: the spec's own multi-db downgrade
example (`use_multi_db: true, db_name: "A", user_name: "old"`). -/
def gcC1e : Dict :=
  [("use_multi_db", .bool true), ("db_name", .str "A"),
    ("user_name", .str "old")]

/-- C1 example, default graph config (`use_multi_db: false, db_name: "B"`). -/
def gcC1d : Dict :=
  [("use_multi_db", .bool false), ("db_name", .str "B")]

/-- C1 example, existing side. -/
def exC1e : Dict := withGraph [("user_id", .str "alice")] "neo4j" gcC1e

/-- C1 example, default side. -/
def exC1d : Dict := withGraph [("user_id", .str "u0")] "neo4j" gcC1d

/-- C1 example: the merged dictionary produced by the merge. -/
def mC1 : Dict :=
  [("user_id", .str "alice"),
    ("text_mem", .obj [("backend", .str "tree_text"),
      ("config", .obj [("graph_db",
        .obj [("backend", .str "neo4j"),
          ("config", .obj [("use_multi_db", .bool false),
            ("db_name", .str "B"), ("user_name", .str "B")])])])])]

/-- C3 example, existing graph config: contains a field absent from the
default (`only_in_existing`). -/
def gcC3e : Dict :=
  [("use_multi_db", .bool true), ("only_in_existing", .num 1)]

/-- C3 example, default graph config (`use_multi_db: true`). -/
def gcC3d : Dict :=
  [("use_multi_db", .bool true), ("host", .str "db.default")]

/-- C3 example, existing side. -/
def exC3e : Dict := withGraph [] "neo4j" gcC3e

/-- C3 example, default side. -/
def exC3d : Dict := withGraph [] "neo4j" gcC3d

/-- C3 example: the merged graph config produced by the merge. -/
def gcC3m : Dict :=
  [("use_multi_db", .bool true), ("only_in_existing", .num 1),
    ("host", .str "db.default")]

/-- C3 example: the merged dictionary produced by the merge. -/
def mC3 : Dict :=
  [("text_mem", .obj [("backend", .str "tree_text"),
    ("config", .obj [("graph_db",
      .obj [("backend", .str "neo4j"), ("config", .obj gcC3m)])])])]

/-- C4 example, existing graph config
(`use_multi_db: false, db_name: "A"`). -/
def gcC4e : Dict :=
  [("use_multi_db", .bool false), ("db_name", .str "A"),
    ("user_name", .str "alice")]

/-- C4 example, default graph config (`use_multi_db: false, db_name: "B"`). -/
def gcC4d : Dict :=
  [("use_multi_db", .bool false), ("db_name", .str "B")]

/-- C4 example, existing side. -/
def exC4e : Dict := withGraph [] "neo4j" gcC4e

/-- C4 example, default side. -/
def exC4d : Dict := withGraph [] "neo4j" gcC4d

/-- C4 example: the merged graph config produced by the merge. -/
def gcC4m : Dict :=
  [("use_multi_db", .bool false), ("db_name", .str "B"),
    ("user_name", .str "alice")]

/-- C4 example: the merged dictionary produced by the merge. -/
def mC4 : Dict :=
  [("text_mem", .obj [("backend", .str "tree_text"),
    ("config", .obj [("graph_db",
      .obj [("backend", .str "neo4j"), ("config", .obj gcC4m)])])])]

/-- C2 example, existing side: only `user_id` present. -/
def exC2e : Dict := [("user_id", .str "alice")]

/-- C2 example, default side. -/
def exC2d : Dict := [("user_id", .str "u0"), ("cube_id", .str "c0")]

/-- C2 example: the merged dictionary produced by the merge. -/
def mC2 : Dict := [("user_id", .str "alice"), ("cube_id", .str "c0")]

/-- C7 example, existing side: no `text_mem` at all. -/
def exC7e : Dict := [("user_id", .str "alice")]

/-- C7 example, default side: has a `text_mem` section. -/
def exC7d : Dict :=
  [("user_id", .str "u0"),
    ("text_mem", .obj [("backend", .str "tree_text")])]

/-- C7 example: the merged dictionary produced by the merge. -/
def mC7 : Dict :=
  [("user_id", .str "alice"),
    ("text_mem", .obj [("backend", .str "tree_text")])]

/-- C10 example, existing graph config. -/
def gcC10e : Dict :=
  [("use_multi_db", .bool true), ("user_name", .str "u1"),
    ("db_name", .str "A")]

/-- C10 example, default graph config: no `use_multi_db` key at all. -/
def gcC10d : Dict := [("db_name", .str "B")]

/-- C10 example, existing side. -/
def exC10e : Dict := withGraph [] "neo4j" gcC10e

/-- C10 example, default side. -/
def exC10d : Dict := withGraph [] "neo4j" gcC10d

/-- C10 example: the merged graph config produced by the merge. -/
def gcC10m : Dict :=
  [("use_multi_db", .bool true), ("user_name", .str "u1"),
    ("db_name", .str "B")]

/-- C10 example: the merged dictionary produced by the merge. -/
def mC10 : Dict :=
  [("text_mem", .obj [("backend", .str "tree_text"),
    ("config", .obj [("graph_db",
      .obj [("backend", .str "neo4j"), ("config", .obj gcC10m)])])])]

/-- A trivial pydantic model used to witness validation-failure
propagation: every dictionary fails validation. -/
def rejectAllModel : ConfigModel Unit :=
  { model_dump := fun _ => []
    model_validate := fun _ => .error "ValidationError" }

/-! ## C8: non-mutation of the inputs, via an explicit heap model

The pure embedding above cannot express Python's in-place dictionary
mutation, so the frame claim (the merge never mutates its inputs) is
proved against a second, heap-level embedding.  Python dictionaries are
heap objects (`Node`s at addresses); scalars and — since the merge never
mutates a list — JSON arrays are immutable values.  `model_dump` and
`copy.deepcopy` both materialise a fresh tree (`copyVal`); dictionary
assignment mutates a heap cell in place (`setKeyH`).  The recursion-depth
fuel `F` models Python's recursion limit, and `validate` the external
`model_validate` check.

Correspondence with the source and with the pure embedding:
`computeGraphImp` is lines 63–99 (`preservedGraphDb` at the pure level),
with `graphLoopBodyImp` the loop body of lines 81–86, and
`downgradeRuleImp` the derived-field rule of lines 87–94;
`preserveBodyImp` is the loop body of lines 105–107 (`preserveFold`);
`restoreGraphImp` is lines 110–113 (`restoreGraph`); `mergeImp` is the
whole function body, lines 52–122.  The cross-check theorems
`computeGraphImp_agrees_on_example` and `mergeImp_agrees_on_flat_example`
evaluate the two embeddings against each other in the kernel.

Proof architecture for the frame property: `HSpec n m post` says that
from any heap whose fresh region (addresses ≥ `n`) only references the
fresh region (`FreshInv`), the computation `m` preserves that invariant
and never changes an address < `n` (`Frame`).  Every address the merge
writes to (`hwrite`, via `setKeyH`) is obtained from `halloc`, from
`copyVal`, or by following a reference stored in a fresh node, so it lies
in the fresh region; the inputs, which live below `n = h.next`, are
untouched, and `read_frame` turns the untouched bytes into unchanged
deep read-backs. -/

/-- A Python runtime value: an immutable value, or a reference to a
dictionary on the heap. -/
inductive HVal where
  | prim : JVal → HVal
  | ref : Nat → HVal

/-- The entries of one heap-allocated dictionary. -/
abbrev Node := List (String × HVal)

/-- The heap: an allocation counter and the allocated dictionaries. -/
structure Heap where
  next : Nat
  mem : Nat → Option Node

/-- The Python computation monad: state (the heap) plus exceptions.  The
heap survives an exception, so post-failure states are observable. -/
def HM (α : Type) : Type := Heap → Except String α × Heap

instance : Monad HM where
  pure a := fun h => (.ok a, h)
  bind m f := fun h =>
    match m h with
    | (.ok a, h1) => f a h1
    | (.error s, h1) => (.error s, h1)

/-- Raise an exception. -/
def hmThrow {α : Type} (s : String) : HM α := fun h => (.error s, h)

/-- Allocate a fresh dictionary. -/
def halloc (nd : Node) : HM Nat := fun h =>
  (.ok h.next,
    ⟨h.next + 1, fun a => if a = h.next then some nd else h.mem a⟩)

/-- Read the dictionary at an address. -/
def hread (a : Nat) : HM Node := fun h =>
  match h.mem a with
  | some nd => (.ok nd, h)
  | none => (.error "invalid reference", h)

/-- Overwrite the dictionary at an address (in-place mutation). -/
def hwrite (a : Nat) (nd : Node) : HM Unit := fun h =>
  (.ok (), ⟨h.next, fun x => if x = a then some nd else h.mem x⟩)

/-- First-occurrence lookup in a node (Python dict keys are unique). -/
def nodeGet? (nd : Node) (k : String) : Option HVal :=
  (nd.find? (fun kv => kv.1 = k)).map (·.2)

/-- `k in d` at heap level. -/
def nodeMem (nd : Node) (k : String) : Bool := (nodeGet? nd k).isSome

/-- `d[k] = v` on the entry list: replace the first occurrence or append. -/
def nodeSet : Node → String → HVal → Node
  | [], k, v => [(k, v)]
  | kv :: rest, k, v =>
      if kv.1 = k then (k, v) :: rest else kv :: nodeSet rest k v

/-- `d[k]`: `KeyError` when absent, `TypeError` handled by `asDict`. -/
def getItemH (a : Nat) (k : String) : HM HVal := do
  let nd ← hread a
  match nodeGet? nd k with
  | some v => pure v
  | none => hmThrow "KeyError"

/-- Use a value as a dictionary (attribute/subscript access); a
non-dictionary raises. -/
def asDict : HVal → HM Nat
  | .ref a => pure a
  | .prim _ => hmThrow "TypeError"

/-- `d.get(k, dflt)`. -/
def getDH (a : Nat) (k : String) (dflt : HVal) : HM HVal := do
  let nd ← hread a
  pure ((nodeGet? nd k).getD dflt)

/-- `d.get("config", {})`: the `{}` default allocates a fresh empty
dictionary. -/
def getConfigOrEmpty (a : Nat) : HM HVal := do
  let nd ← hread a
  match nodeGet? nd "config" with
  | some v => pure v
  | none => do
      let b ← halloc []
      pure (.ref b)

/-- Python truthiness of a runtime value (a dict is truthy iff
non-empty). -/
def truthyH : HVal → HM Bool
  | .prim v => pure (truthy v)
  | .ref a => do
      let nd ← hread a
      pure (!nd.isEmpty)

/-- `d[k] = v`: in-place update of the dictionary at address `a`. -/
def setKeyH (a : Nat) (k : String) (v : HVal) : HM Unit := do
  let nd ← hread a
  hwrite a (nodeSet nd k v)

/-- `for key, value in items: body` over a snapshot of the entries. -/
def forFields : Node → (String → HVal → HM Unit) → HM Unit
  | [], _ => pure ()
  | kv :: rest, f => do
      f kv.1 kv.2
      forFields rest f

/-- `for field in names: body`. -/
def forNames : List String → (String → HM Unit) → HM Unit
  | [], _ => pure ()
  | k :: rest, f => do
      f k
      forNames rest f

/-- Copy each entry of a node with the given value-copier. -/
def copyFieldsWith (f : HVal → HM HVal) : Node → HM Node
  | [] => pure []
  | kv :: rest => do
      let v2 ← f kv.2
      let rest2 ← copyFieldsWith f rest
      pure ((kv.1, v2) :: rest2)

/-- Materialise a fresh copy of a runtime tree (`copy.deepcopy`, and also
`model_dump`, which dumps a record to a fresh JSON tree).  `F` bounds the
recursion depth (Python's recursion limit); structural recursion on `F`,
so the kernel can evaluate it. -/
def copyVal : Nat → HVal → HM HVal
  | _, .prim v => pure (.prim v)
  | 0, .ref _ => hmThrow "maximum recursion depth exceeded"
  | F + 1, .ref a => do
      let nd ← hread a
      let nd2 ← copyFieldsWith (copyVal F) nd
      let a2 ← halloc nd2
      pure (.ref a2)

/-- Read each entry of a node back with the given value-reader. -/
def readFieldsWith (f : HVal → Option JVal) :
    Node → Option (List (String × JVal))
  | [] => some []
  | kv :: rest => do
      let jv ← f kv.2
      let jrest ← readFieldsWith f rest
      pure ((kv.1, jv) :: jrest)

/-- Read a runtime tree back into a pure JSON value (deep equality of two
trees is equality of their read-backs at every fuel). -/
def readVal (h : Heap) : Nat → HVal → Option JVal
  | _, .prim v => some v
  | 0, .ref _ => none
  | F + 1, .ref a =>
      match h.mem a with
      | some nd => (readFieldsWith (readVal h F) nd).map JVal.obj
      | none => none

/-- Read the dictionary at an address back into a JSON tree (used to feed
`model_validate`). -/
def readTreeM (F : Nat) (a : Nat) : HM JVal := fun h =>
  match readVal h F (.ref a) with
  | some v => (.ok v, h)
  | none => (.error "read failed", h)

/-- One iteration of the per-key overwrite loop, heap level:
`if key not in preserve_graph_fields: merged_graph_config[key] = value`. -/
def graphLoopBodyImp (mgc : Nat) (k : String) (v : HVal) : HM Unit :=
  if k ∈ preserve_graph_fields then pure () else setKeyH mgc k v

/-- One iteration of the identity-preservation loop, heap level:
`if field in existing_dict: merged_dict[field] = existing_dict[field]`. -/
def preserveBodyImp (ed md : Nat) (f : String) : HM Unit := do
  let edN2 ← hread ed
  match nodeGet? edN2 f with
  | some v => setKeyH md f v
  | none => pure ()

/-- The derived-field (downgrade) rule, heap level: mutates the merged
graph config in place. -/
def downgradeRuleImp (mgc dgc : Nat) : HM Unit := do
  let dflag ← truthyH (← getDH dgc "use_multi_db" (.prim (.bool true)))
  if !dflag then do
    let mflag ← truthyH (← getDH mgc "use_multi_db" (.prim (.bool true)))
    if mflag then do
      setKeyH mgc "use_multi_db" (.prim (.bool false))
      setKeyH mgc "user_name" (← getDH mgc "db_name" (.prim .null))
      setKeyH mgc "db_name" (← getDH dgc "db_name" (.prim .null))
    else pure ()
  else pure ()

/-- Lines 63–99, heap level: compute `preserved_graph_db` (the address of
the freshly allocated `{backend, config}` dictionary, or `None`). -/
def computeGraphImp (F : Nat) (ed dd : Nat) (edN ddN : Node) :
    HM (Option Nat) :=
  if nodeMem edN "text_mem" && nodeMem ddN "text_mem" then do
    let etc ← asDict
      (← getConfigOrEmpty (← asDict (← getItemH ed "text_mem")))
    let dtc ← asDict
      (← getConfigOrEmpty (← asDict (← getItemH dd "text_mem")))
    let etcN ← hread etc
    let dtcN ← hread dtc
    if nodeMem etcN "graph_db" && nodeMem dtcN "graph_db" then do
      let egd ← asDict (← getItemH etc "graph_db")
      let egc ← asDict (← getItemH egd "config")
      let dgd ← asDict (← getItemH dtc "graph_db")
      let dgc ← asDict (← getItemH dgd "config")
      let mgc ← asDict (← copyVal F (.ref egc))
      let dgcN ← hread dgc
      forFields dgcN (graphLoopBodyImp mgc)
      downgradeRuleImp mgc dgc
      let backend ← getItemH egd "backend"
      let pa ← halloc [("backend", backend), ("config", .ref mgc)]
      pure (some pa)
    else pure (none : Option Nat)
  else pure (none : Option Nat)

/-- Lines 110–113, heap level: write the preserved graph-db dictionary
into the merged dictionary (in-place mutation of its `text_mem.config`). -/
def restoreGraphImp (md : Nat) (pgd? : Option Nat) : HM Unit :=
  match pgd? with
  | some pa => do
      let mdN ← hread md
      if nodeMem mdN "text_mem" then do
        let tm ← asDict (← getItemH md "text_mem")
        let cfg ← asDict (← getItemH tm "config")
        setKeyH cfg "graph_db" (.ref pa)
      else pure ()
  | none => pure ()

/-- Heap-level embedding of `merge_config_with_default`: `existing_addr`
and `default_addr` are the input records' trees on the heap; the body
mirrors the source line by line, returning the address of the merged
dictionary after validation. -/
def mergeImp (F : Nat) (validate : JVal → Except String Unit)
    (existing_addr default_addr : Nat) : HM Nat := do
  let ed ← asDict (← copyVal F (.ref existing_addr))
  let dd ← asDict (← copyVal F (.ref default_addr))
  let edN ← hread ed
  let ddN ← hread dd
  let pgd? ← computeGraphImp F ed dd edN ddN
  let md ← asDict (← copyVal F (.ref dd))
  forNames preserve_fields (preserveBodyImp ed md)
  restoreGraphImp md pgd?
  let mtree ← readTreeM F md
  match validate mtree with
  | .ok _ => pure md
  | .error s => hmThrow s

/-! ### Frame reasoning for the heap-level merge -/

/-- A value's reference, if any, points at or above `n`. -/
def HValGE (n : Nat) (v : HVal) : Prop := ∀ a, v = HVal.ref a → n ≤ a

/-- Every reference stored in the node points at or above `n`. -/
def RefsGE (n : Nat) (nd : Node) : Prop := ∀ kv ∈ nd, HValGE n kv.2

/-- Invariant: everything allocated at or above the baseline `n` only
references addresses at or above `n` (fresh data never points into the
old heap... it may, but writes only target fresh addresses, so it is
enough to know fresh nodes are the only mutable frontier). -/
def FreshInv (n : Nat) (h : Heap) : Prop :=
  n ≤ h.next ∧ ∀ a nd, n ≤ a → h.mem a = some nd → RefsGE n nd

/-- The heap below the baseline `n` is untouched. -/
def Frame (n : Nat) (h h' : Heap) : Prop :=
  h.next ≤ h'.next ∧ ∀ a, a < n → h'.mem a = h.mem a

/-- Hoare-style spec: from any heap satisfying the invariant, the
computation preserves the invariant, never writes below the baseline, and
its successful result satisfies `post`. -/
def HSpec {α : Type} (n : Nat) (m : HM α) (post : α → Prop) : Prop :=
  ∀ h, FreshInv n h →
    FreshInv n (m h).2 ∧ Frame n h (m h).2 ∧
      ∀ a, (m h).1 = .ok a → post a

/-- A well-formed initial heap: nothing is allocated at or above the
allocation counter, and every stored reference points below it. -/
def WfHeap (h : Heap) : Prop :=
  (∀ a, h.next ≤ a → h.mem a = none) ∧
  (∀ a nd, h.mem a = some nd → ∀ kv ∈ nd, ∀ r, kv.2 = HVal.ref r →
    r < h.next)

/-- A validator that accepts everything (used for the C8 witness). -/
def okValidate : JVal → Except String Unit := fun _ => .ok ()

/-- A validator that rejects everything (used for the C8 witness's
failure path). -/
def rejectValidate : JVal → Except String Unit :=
  fun _ => .error "ValidationError"

/-- Decidable check that every reference of a node points below `n`. -/
def nodeRefsLT (n : Nat) (nd : Node) : Bool :=
  nd.all (fun kv => match kv.2 with
    | .ref r => decide (r < n)
    | .prim _ => true)

/-- Decidable well-formedness of a heap given as a node list. -/
def wfCheck (nodes : List Node) : Bool :=
  nodes.all (nodeRefsLT nodes.length)

/-- Build a heap from a node list (address `a` holds the `a`-th node). -/
def heapOfNodes (nodes : List Node) : Heap :=
  ⟨nodes.length, fun a => nodes.get? a⟩

/-- C8 witness heap nodes: the existing record of the C1 example
(`exC1e`, rooted at address 0) and the default record (`exC1d`, rooted at
address 1), laid out as linked heap dictionaries.  This input exercises
the whole mutating path of the merge: the per-key overwrite loop, the
downgrade rule's three in-place writes, and the graph-db restore write. -/
def h8nodes : List Node :=
  [ [("user_id", .prim (.str "alice")), ("text_mem", .ref 2)],
    [("user_id", .prim (.str "u0")), ("text_mem", .ref 3)],
    [("backend", .prim (.str "tree_text")), ("config", .ref 4)],
    [("backend", .prim (.str "tree_text")), ("config", .ref 5)],
    [("graph_db", .ref 6)],
    [("graph_db", .ref 7)],
    [("backend", .prim (.str "neo4j")), ("config", .ref 8)],
    [("backend", .prim (.str "neo4j")), ("config", .ref 9)],
    [("use_multi_db", .prim (.bool true)), ("db_name", .prim (.str "A")),
      ("user_name", .prim (.str "old"))],
    [("use_multi_db", .prim (.bool false)), ("db_name", .prim (.str "B"))] ]

/-- C8 witness heap. -/
def h8 : Heap := heapOfNodes h8nodes

/-- A flat witness heap: the C2 example records (`exC2e` at address 0 and
`exC2d` at address 1) with no nesting. -/
def hflat : Heap := heapOfNodes
  [ [("user_id", .prim (.str "alice"))],
    [("user_id", .prim (.str "u0")), ("cube_id", .prim (.str "c0"))] ]

/-- Run the heap-level merge and read the merged dictionary back as a
JSON tree (`none` when the merge failed). -/
def runMergeImp (F : Nat) (validate : JVal → Except String Unit)
    (ae ad : Nat) (h : Heap) : Option JVal :=
  match mergeImp F validate ae ad h with
  | (.ok md, h2) => readVal h2 F (.ref md)
  | (.error _, _) => none

/-! ## Basic lemmas about the dictionary operations -/

theorem dictGet?_nil (k : String) : dictGet? [] k = none := rfl

theorem dictGet?_cons (kv : String × JVal) (rest : Dict) (k : String) :
    dictGet? (kv :: rest) k = if kv.1 = k then some kv.2 else dictGet? rest k := by
  by_cases h : kv.1 = k <;> simp [dictGet?, List.find?, h]

theorem dictGet?_dictSet (d : Dict) (k k' : String) (v : JVal) :
    dictGet? (dictSet d k v) k' = if k' = k then some v else dictGet? d k' := by
  induction d with
  | nil =>
      by_cases h : k' = k
      · simp [dictSet, dictGet?_cons, dictGet?_nil, h]
      · have hne : ¬(k = k') := fun h' => h h'.symm
        simp [dictSet, dictGet?_cons, dictGet?_nil, h, hne]
  | cons kv rest ih =>
      by_cases hk : kv.1 = k
      · by_cases h : k' = k
        · simp [dictSet, hk, dictGet?_cons, h]
        · have hne : ¬(k = k') := fun h' => h h'.symm
          have hne2 : ¬(kv.1 = k') := hk ▸ hne
          simp [dictSet, hk, dictGet?_cons, h, hne, hne2]
      · by_cases hkv : kv.1 = k'
        · have hne : ¬(k' = k) := fun h' => hk (hkv.trans h')
          simp [dictSet, hk, dictGet?_cons, hkv, hne]
        · simp [dictSet, hk, dictGet?_cons, hkv, ih]

theorem dictGet?_eq_some_getD {d : Dict} {k : String} (dflt : JVal)
    (h : dictMem d k = true) : dictGet? d k = some (dictGetD d k dflt) := by
  unfold dictMem at h
  cases hg : dictGet? d k with
  | none => rw [hg] at h; simp at h
  | some v => simp [dictGetD, hg]

theorem dictMem_of_get? {d : Dict} {k : String} {v : JVal}
    (h : dictGet? d k = some v) : dictMem d k = true := by
  simp [dictMem, h]

theorem dictGetD_of_get? {d : Dict} {k : String} {v : JVal} (dflt : JVal)
    (h : dictGet? d k = some v) : dictGetD d k dflt = v := by
  simp [dictGetD, h]

theorem dictMem_false_get? {d : Dict} {k : String}
    (h : dictMem d k = false) : dictGet? d k = none := by
  unfold dictMem at h
  cases hg : dictGet? d k with
  | none => rfl
  | some v => rw [hg] at h; simp at h

/-! ## Destructuring helpers for `Except` and the navigation functions -/

theorem exceptBind_ok {α β : Type} {x : Except String α} {f : α → Except String β}
    {b : β} : (x >>= f) = .ok b ↔ ∃ a, x = .ok a ∧ f a = .ok b := by
  cases x <;> simp [Bind.bind, Except.bind]

theorem exceptOk_bind {α β : Type} (a : α) (f : α → Except String β) :
    ((Except.ok a : Except String α) >>= f) = f a := rfl

theorem asObj?_eq_ok {v : JVal} {d : Dict} : asObj? v = .ok d ↔ v = .obj d := by
  cases v <;> simp [asObj?]

theorem getItem_eq_ok {d : Dict} {k : String} {v : JVal} :
    getItem d k = .ok v ↔ dictGet? d k = some v := by
  unfold getItem
  cases h : dictGet? d k <;> simp

theorem asObjO_eq_some {v : JVal} {d : Dict} : asObjO v = some d ↔ v = .obj d := by
  cases v <;> simp [asObjO]

theorem graphPartsOf_eq_some {x : Dict} {gd : Dict} :
    graphPartsOf x = some gd ↔
      ∃ tm tcfg, dictGet? x "text_mem" = some (.obj tm) ∧
        dictGetD tm "config" (.obj []) = .obj tcfg ∧
        dictGet? tcfg "graph_db" = some (.obj gd) := by
  constructor
  · intro h
    simp only [graphPartsOf, Option.bind_eq_bind', Option.bind_eq_some',
      asObjO_eq_some] at h
    obtain ⟨tmv, h1, tm, rfl, tcfg, h3, gdv, h4, h5⟩ := h
    exact ⟨tm, tcfg, h1, h3, by rw [h4, h5]⟩
  · rintro ⟨tm, tcfg, h1, h3, h4⟩
    simp [graphPartsOf, h1, asObjO, h3, h4]

theorem graphCfgOf_eq_some {x : Dict} {gc : Dict} :
    graphCfgOf x = some gc ↔
      ∃ gd, graphPartsOf x = some gd ∧ dictGet? gd "config" = some (.obj gc) := by
  constructor
  · intro h
    simp only [graphCfgOf, Option.bind_eq_bind', Option.bind_eq_some',
      asObjO_eq_some] at h
    obtain ⟨gd, h1, v, h2, h3⟩ := h
    exact ⟨gd, h1, by rw [h2, h3]⟩
  · rintro ⟨gd, h1, h2⟩
    simp [graphCfgOf, h1, h2, asObjO]

theorem graphBackendOf_eq (x : Dict) :
    graphBackendOf x = (graphPartsOf x).bind (fun gd => dictGet? gd "backend") := rfl

/-- If `text_mem.get("config", {})` produced `tcfg` and `graph_db` was found
inside it, then the `config` key is genuinely present in `text_mem` (the
`{}` default is empty and cannot contain `graph_db`). -/
theorem config_present {tm tcfg : Dict} {v : JVal}
    (h1 : dictGetD tm "config" (.obj []) = .obj tcfg)
    (h2 : dictGet? tcfg "graph_db" = some v) :
    dictGet? tm "config" = some (.obj tcfg) := by
  cases h : dictGet? tm "config" with
  | none =>
      have he : ([] : Dict) = tcfg := by simpa [dictGetD, h] using h1
      rw [← he] at h2
      simp [dictGet?_nil] at h2
  | some w =>
      have hw : w = .obj tcfg := by simpa [dictGetD, h] using h1
      exact congrArg some hw

/-! ## The identity-field preservation loop -/

theorem dictGet?_eq_none_of_not_mem_keys {d : Dict} {k : String}
    (h : k ∉ d.map Prod.fst) : dictGet? d k = none := by
  induction d with
  | nil => rfl
  | cons kv rest ih =>
      simp only [List.map_cons, List.mem_cons] at h
      push_neg at h
      rw [dictGet?_cons, if_neg (fun he => h.1 he.symm), ih h.2]

theorem foldPreserve_get_notin (e : Dict) (L : List String) (b : Dict)
    (k : String) (hk : k ∉ L) :
    dictGet? (L.foldl
      (fun m field =>
        if dictMem e field then dictSet m field (dictGetD e field .null) else m)
      b) k = dictGet? b k := by
  induction L generalizing b with
  | nil => rfl
  | cons f rest ih =>
      simp only [List.mem_cons] at hk
      push_neg at hk
      rw [List.foldl_cons, ih _ hk.2]
      by_cases hm : dictMem e f
      · rw [if_pos hm, dictGet?_dictSet, if_neg hk.1]
      · rw [if_neg hm]

theorem foldPreserve_get_mem (e : Dict) (L : List String) (hnd : L.Nodup)
    (b : Dict) (f : String) (hf : f ∈ L) :
    dictGet? (L.foldl
      (fun m field =>
        if dictMem e field then dictSet m field (dictGetD e field .null) else m)
      b) f =
      if dictMem e f then some (dictGetD e f .null) else dictGet? b f := by
  induction L generalizing b with
  | nil => cases hf
  | cons f0 rest ih =>
      have hnd' := List.nodup_cons.mp hnd
      rw [List.foldl_cons]
      rcases List.mem_cons.mp hf with rfl | hfr
      · rw [foldPreserve_get_notin e rest _ f hnd'.1]
        by_cases hm : dictMem e f
        · rw [if_pos hm, if_pos hm, dictGet?_dictSet, if_pos rfl]
        · rw [if_neg hm, if_neg hm]
      · have hne : f ≠ f0 := fun he => hnd'.1 (he ▸ hfr)
        rw [ih hnd'.2 _ hfr]
        by_cases hm : dictMem e f0
        · rw [if_pos hm, dictGet?_dictSet, if_neg hne]
        · rw [if_neg hm]

theorem preserveFold_get_notin (e b : Dict) (k : String)
    (hk : k ∉ preserve_fields) :
    dictGet? (preserveFold e b) k = dictGet? b k :=
  foldPreserve_get_notin e preserve_fields b k hk

theorem preserveFold_get_mem (e b : Dict) (f : String)
    (hf : f ∈ preserve_fields) :
    dictGet? (preserveFold e b) f =
      if dictMem e f then some (dictGetD e f .null) else dictGet? b f :=
  foldPreserve_get_mem e preserve_fields (by decide) b f hf

/-! ## The graph-db per-key overwrite loop -/

theorem graphLoop_get_protected (egc dgc : Dict) (k : String)
    (hk : k ∈ preserve_graph_fields) :
    dictGet? (graphLoop egc dgc) k = dictGet? egc k := by
  unfold graphLoop
  induction dgc generalizing egc with
  | nil => rfl
  | cons kv rest ih =>
      rw [List.foldl_cons, ih]
      by_cases hp : kv.1 ∈ preserve_graph_fields
      · rw [if_pos hp]
      · have hne : k ≠ kv.1 := fun he => hp (he ▸ hk)
        rw [if_neg hp, dictGet?_dictSet, if_neg hne]

theorem graphLoop_get_rest (egc dgc : Dict) (k : String)
    (hk : k ∉ preserve_graph_fields) (hnd : KeysNodup dgc) :
    dictGet? (graphLoop egc dgc) k =
      if dictMem dgc k then dictGet? dgc k else dictGet? egc k := by
  unfold graphLoop
  induction dgc generalizing egc with
  | nil => simp [dictMem, dictGet?_nil]
  | cons kv rest ih =>
      have hnd' := List.nodup_cons.mp hnd
      rw [List.foldl_cons, ih _ hnd'.2]
      by_cases hkk : kv.1 = k
      · have hkp : kv.1 ∉ preserve_graph_fields := hkk ▸ hk
        have hrest : dictGet? rest k = none :=
          dictGet?_eq_none_of_not_mem_keys (hkk ▸ hnd'.1)
        have hmrest : dictMem rest k = false := by simp [dictMem, hrest]
        rw [if_neg hkp, hmrest]
        simp only [Bool.false_eq_true, if_false]
        rw [dictGet?_dictSet, if_pos hkk.symm]
        have hmem : dictMem (kv :: rest) k = true := by
          simp [dictMem, dictGet?_cons, hkk]
        rw [hmem, if_pos rfl, dictGet?_cons, if_pos hkk]
      · have hget : dictGet? (kv :: rest) k = dictGet? rest k := by
          rw [dictGet?_cons, if_neg hkk]
        have hmem : dictMem (kv :: rest) k = dictMem rest k := by
          simp [dictMem, hget]
        rw [hget, hmem]
        by_cases hp : kv.1 ∈ preserve_graph_fields
        · rw [if_pos hp]
        · rw [if_neg hp, dictGet?_dictSet]
          by_cases hm : dictMem rest k
          · simp [hm]
          · rw [if_neg hm, if_neg hm,
              if_neg (show ¬(k = kv.1) from fun he => hkk he.symm)]

/-! ## Destructuring the merge -/

theorem merge_dicts_ok_cases {e d m : Dict} (hm : merge_dicts e d = .ok m) :
    ∃ p, preservedGraphDb e d = .ok p ∧
      restoreGraph (preserveFold e d) p = .ok m := by
  simpa only [merge_dicts, exceptBind_ok] using hm

theorem restoreGraph_ok_some {b pgd m : Dict}
    (h : restoreGraph b (some pgd) = .ok m) :
    (dictMem b "text_mem" = false ∧ m = b) ∨
      ∃ tm cfg, dictGet? b "text_mem" = some (.obj tm) ∧
        dictGet? tm "config" = some (.obj cfg) ∧
        m = dictSet b "text_mem"
          (.obj (dictSet tm "config"
            (.obj (dictSet cfg "graph_db" (.obj pgd))))) := by
  simp only [restoreGraph] at h
  by_cases hmem : dictMem b "text_mem"
  · right
    rw [if_pos hmem] at h
    simp only [exceptBind_ok, pure, Except.pure, Except.ok.injEq] at h
    obtain ⟨tmv, h1, tm, h2, cfgv, h3, cfg, h4, h5⟩ := h
    rw [asObj?_eq_ok] at h2 h4
    subst h2; subst h4
    rw [getItem_eq_ok] at h1 h3
    exact ⟨tm, cfg, h1, h3, h5.symm⟩
  · left
    rw [if_neg hmem] at h
    refine ⟨by simpa using hmem, ?_⟩
    simpa [pure, Except.pure] using h.symm

theorem restoreGraph_ok_none {b m : Dict}
    (h : restoreGraph b none = .ok m) : m = b := by
  simpa [restoreGraph, pure, Except.pure] using h.symm

theorem preservedGraphDb_ok_some {e d p : Dict}
    (h : preservedGraphDb e d = .ok (some p)) :
    ∃ egc dgc b, graphCfgOf e = some egc ∧ graphCfgOf d = some dgc ∧
      graphBackendOf e = some b ∧
      p = [("backend", b), ("config", .obj (mergedGraphConfig egc dgc))] := by
  unfold preservedGraphDb at h
  by_cases hc : (dictMem e "text_mem" && dictMem d "text_mem") = true
  case neg => rw [if_neg hc] at h; simp [pure, Except.pure] at h
  rw [if_pos hc] at h
  simp only [exceptBind_ok] at h
  obtain ⟨etmv, h1, etm, h2, etc, h3, dtmv, h4, dtm, h5, dtc, h6, h⟩ := h
  by_cases hc2 : (dictMem etc "graph_db" && dictMem dtc "graph_db") = true
  case neg => rw [if_neg hc2] at h; simp [pure, Except.pure] at h
  rw [if_pos hc2] at h
  simp only [exceptBind_ok, pure, Except.pure, Except.ok.injEq,
    Option.some.injEq] at h
  obtain ⟨egdv, g1, egd, g2, egcv, g3, egc, g4, dgdv, g5, dgd, g6, dgcv, g7,
    dgc, g8, b, g9, g10⟩ := h
  rw [asObj?_eq_ok] at h2 h3 h5 h6 g2 g4 g6 g8
  rw [getItem_eq_ok] at h1 h4 g1 g3 g5 g7 g9
  subst h2; subst h5; subst g2; subst g4; subst g6; subst g8
  refine ⟨egc, dgc, b, ?_, ?_, ?_, g10.symm⟩
  · exact graphCfgOf_eq_some.mpr
      ⟨egd, graphPartsOf_eq_some.mpr ⟨etm, etc, h1, h3, g1⟩, g3⟩
  · exact graphCfgOf_eq_some.mpr
      ⟨dgd, graphPartsOf_eq_some.mpr ⟨dtm, dtc, h4, h6, g5⟩, g7⟩
  · rw [graphBackendOf_eq, graphPartsOf_eq_some.mpr ⟨etm, etc, h1, h3, g1⟩]
    simpa using g9

theorem preservedGraphDb_ok_none {e d : Dict}
    (h : preservedGraphDb e d = .ok none) :
    graphCfgOf e = none ∨ graphCfgOf d = none := by
  unfold preservedGraphDb at h
  by_cases hc : (dictMem e "text_mem" && dictMem d "text_mem") = true
  case neg =>
    rw [Bool.and_eq_true] at hc
    push_neg at hc
    by_cases hce : dictMem e "text_mem" = true
    · right
      have : dictGet? d "text_mem" = none := dictMem_false_get?
        (by simpa using hc hce)
      simp [graphCfgOf, graphPartsOf, this]
    · left
      have : dictGet? e "text_mem" = none := dictMem_false_get?
        (by simpa using hce)
      simp [graphCfgOf, graphPartsOf, this]
  rw [if_pos hc] at h
  simp only [exceptBind_ok] at h
  obtain ⟨etmv, h1, etm, h2, etc, h3, dtmv, h4, dtm, h5, dtc, h6, h⟩ := h
  rw [asObj?_eq_ok] at h2 h3 h5 h6
  rw [getItem_eq_ok] at h1 h4
  subst h2; subst h5
  by_cases hc2 : (dictMem etc "graph_db" && dictMem dtc "graph_db") = true
  case pos =>
    rw [if_pos hc2] at h
    simp only [exceptBind_ok, pure, Except.pure, Except.ok.injEq] at h
    obtain ⟨_, _, _, _, _, _, _, _, _, _, _, _, _, _, _, _, h⟩ := h
    simp at h
  rw [Bool.and_eq_true] at hc2
  push_neg at hc2
  by_cases hge : dictMem etc "graph_db" = true
  · right
    have hnone : dictGet? dtc "graph_db" = none := dictMem_false_get?
      (by simpa using hc2 hge)
    simp [graphCfgOf, graphPartsOf, h4, asObjO, h6, hnone]
  · left
    have hnone : dictGet? etc "graph_db" = none := dictMem_false_get?
      (by simpa using hge)
    simp [graphCfgOf, graphPartsOf, h1, asObjO, h3, hnone]

/-- Central bridge: when both inputs have a graph-db section and the merge
succeeds, the merged dictionary's graph-db section is
`{backend: existing backend, config: mergedGraphConfig}`. -/
theorem merge_graph_bridge {e d egc dgc m : Dict}
    (he : graphCfgOf e = some egc) (hd : graphCfgOf d = some dgc)
    (hm : merge_dicts e d = .ok m) :
    ∃ b, graphBackendOf e = some b ∧ graphBackendOf m = some b ∧
      graphCfgOf m = some (mergedGraphConfig egc dgc) := by
  obtain ⟨p, hp, hr⟩ := merge_dicts_ok_cases hm
  cases p with
  | none =>
      rcases preservedGraphDb_ok_none hp with h | h
      · rw [he] at h; cases h
      · rw [hd] at h; cases h
  | some pgd =>
      obtain ⟨egc', dgc', b, he', hd', hb, rfl⟩ := preservedGraphDb_ok_some hp
      obtain rfl : egc = egc' := Option.some.inj (he.symm.trans he')
      obtain rfl : dgc = dgc' := Option.some.inj (hd.symm.trans hd')
      obtain ⟨gdD, hpD, _⟩ := graphCfgOf_eq_some.mp hd
      obtain ⟨tmD, tcfgD, htmD, _, _⟩ := graphPartsOf_eq_some.mp hpD
      have htm0 : dictGet? (preserveFold e d) "text_mem" =
          some (.obj tmD) := by
        rw [preserveFold_get_notin e d "text_mem" (by decide), htmD]
      rcases restoreGraph_ok_some hr with ⟨hf, _⟩ | ⟨tm, cfg, htm, hcfg, rfl⟩
      · rw [dictMem_of_get? htm0] at hf; cases hf
      · have hparts : graphPartsOf
            (dictSet (preserveFold e d) "text_mem"
              (.obj (dictSet tm "config"
                (.obj (dictSet cfg "graph_db"
                  (.obj [("backend", b),
                    ("config", .obj (mergedGraphConfig egc dgc))])))))) =
            some [("backend", b),
              ("config", .obj (mergedGraphConfig egc dgc))] := by
          apply graphPartsOf_eq_some.mpr
          refine ⟨dictSet tm "config"
              (.obj (dictSet cfg "graph_db"
                (.obj [("backend", b),
                  ("config", .obj (mergedGraphConfig egc dgc))]))),
            dictSet cfg "graph_db"
              (.obj [("backend", b),
                ("config", .obj (mergedGraphConfig egc dgc))]), ?_, ?_, ?_⟩
          · rw [dictGet?_dictSet, if_pos rfl]
          · rw [dictGetD, dictGet?_dictSet, if_pos rfl, Option.getD_some]
          · rw [dictGet?_dictSet, if_pos rfl]
        refine ⟨b, hb, ?_, ?_⟩
        · rw [graphBackendOf_eq, hparts]
          simp [dictGet?_cons]
        · apply graphCfgOf_eq_some.mpr
          refine ⟨_, hparts, ?_⟩
          simp [dictGet?_cons]

/-! ## Branch lemmas for the derived-field (downgrade) rule -/

theorem mergedGraphConfig_of_default_multi {egc dgc : Dict}
    (h : truthy (dictGetD dgc "use_multi_db" (.bool true)) = true) :
    mergedGraphConfig egc dgc = graphLoop egc dgc := by
  simp [mergedGraphConfig, h]

theorem mergedGraphConfig_noop {egc dgc : Dict}
    (hdef : truthy (dictGetD dgc "use_multi_db" (.bool true)) = false)
    (hmer : truthy (dictGetD (graphLoop egc dgc) "use_multi_db" (.bool true)) =
      false) :
    mergedGraphConfig egc dgc = graphLoop egc dgc := by
  simp [mergedGraphConfig, hdef, hmer]

theorem mergedGraphConfig_downgrade {egc dgc : Dict}
    (hdef : truthy (dictGetD dgc "use_multi_db" (.bool true)) = false)
    (hmer : truthy (dictGetD (graphLoop egc dgc) "use_multi_db" (.bool true)) =
      true) :
    mergedGraphConfig egc dgc =
      dictSet
        (dictSet (dictSet (graphLoop egc dgc) "use_multi_db" (.bool false))
          "user_name"
          (dictGetD (dictSet (graphLoop egc dgc) "use_multi_db" (.bool false))
            "db_name" .null))
        "db_name" (dictGetD dgc "db_name" .null) := by
  simp [mergedGraphConfig, hdef, hmer]

theorem downgrade_get_umd {egc dgc : Dict}
    (hdef : truthy (dictGetD dgc "use_multi_db" (.bool true)) = false)
    (hmer : truthy (dictGetD (graphLoop egc dgc) "use_multi_db" (.bool true)) =
      true) :
    dictGet? (mergedGraphConfig egc dgc) "use_multi_db" =
      some (.bool false) := by
  rw [mergedGraphConfig_downgrade hdef hmer]
  rw [dictGet?_dictSet, if_neg (by decide), dictGet?_dictSet,
    if_neg (by decide), dictGet?_dictSet, if_pos rfl]

theorem downgrade_get_user_name {egc dgc : Dict}
    (hdef : truthy (dictGetD dgc "use_multi_db" (.bool true)) = false)
    (hmer : truthy (dictGetD (graphLoop egc dgc) "use_multi_db" (.bool true)) =
      true) :
    dictGet? (mergedGraphConfig egc dgc) "user_name" =
      some (dictGetD (graphLoop egc dgc) "db_name" .null) := by
  rw [mergedGraphConfig_downgrade hdef hmer]
  rw [dictGet?_dictSet, if_neg (by decide), dictGet?_dictSet, if_pos rfl]
  rw [dictGetD, dictGetD, dictGet?_dictSet, if_neg (by decide)]

theorem downgrade_get_db_name {egc dgc : Dict}
    (hdef : truthy (dictGetD dgc "use_multi_db" (.bool true)) = false)
    (hmer : truthy (dictGetD (graphLoop egc dgc) "use_multi_db" (.bool true)) =
      true) :
    dictGet? (mergedGraphConfig egc dgc) "db_name" =
      some (dictGetD dgc "db_name" .null) := by
  rw [mergedGraphConfig_downgrade hdef hmer]
  rw [dictGet?_dictSet, if_pos rfl]

/-! ## Claim theorems -/

/-- C2: Identity preservation — each of `user_id`, `cube_id`,
`config_filename`, `model_schema` that is present in the existing
dictionary has exactly the existing dictionary's value in the merged
result, and one absent from the existing dictionary is left at the
default's value, without error. -/
theorem C2_identity_preservation {e d m : Dict}
    (hm : merge_dicts e d = .ok m) :
    ∀ f ∈ preserve_fields,
      dictGet? m f = if dictMem e f then dictGet? e f else dictGet? d f := by
  intro f hf
  obtain ⟨p, hp, hr⟩ := merge_dicts_ok_cases hm
  have hne : f ≠ "text_mem" := by
    simp only [preserve_fields, List.mem_cons, List.not_mem_nil, or_false] at hf
    rcases hf with rfl | rfl | rfl | rfl <;> decide
  have hstep : dictGet? m f = dictGet? (preserveFold e d) f := by
    cases p with
    | none => rw [restoreGraph_ok_none hr]
    | some pgd =>
        rcases restoreGraph_ok_some hr with ⟨_, rfl⟩ | ⟨tm, cfg, _, _, rfl⟩
        · rfl
        · rw [dictGet?_dictSet, if_neg hne]
  rw [hstep, preserveFold_get_mem e d f hf]
  by_cases hmem : dictMem e f
  · rw [if_pos hmem, if_pos hmem]
    exact (dictGet?_eq_some_getD .null hmem).symm
  · rw [if_neg hmem, if_neg hmem]

/-- C6: Backend tag provenance — when both inputs have a graph-db section
and the merge succeeds, the merged `text_mem.config.graph_db.backend`
equals the existing dictionary's backend tag. -/
theorem C6_backend_provenance {e d egc dgc m : Dict}
    (he : graphCfgOf e = some egc) (hd : graphCfgOf d = some dgc)
    (hm : merge_dicts e d = .ok m) :
    graphBackendOf m = graphBackendOf e ∧
      (graphBackendOf m).isSome = true := by
  obtain ⟨b, hb, hbm, _⟩ := merge_graph_bridge he hd hm
  rw [hbm, hb]
  exact ⟨rfl, rfl⟩

/-- C7: No-graph-db pass-through — if either input lacks the
`text_mem.config.graph_db` path, no graph-db merging occurs and the merged
`text_mem` section is exactly the default's `text_mem` section (identity
fields are top-level, so they do not touch `text_mem`). -/
theorem C7_no_graph_passthrough {e d m : Dict}
    (h : graphCfgOf e = none ∨ graphCfgOf d = none)
    (hm : merge_dicts e d = .ok m) :
    dictGet? m "text_mem" = dictGet? d "text_mem" := by
  obtain ⟨p, hp, hr⟩ := merge_dicts_ok_cases hm
  cases p with
  | some pgd =>
      obtain ⟨egc, dgc, b, he', hd', _, _⟩ := preservedGraphDb_ok_some hp
      rcases h with h | h
      · rw [h] at he'; cases he'
      · rw [h] at hd'; cases hd'
  | none =>
      rw [restoreGraph_ok_none hr]
      exact preserveFold_get_notin e d "text_mem" (by decide)

/-- C9: Validation-failure atomicity — if the assembled merged dictionary
fails `model_validate`, the call returns exactly that error and never a
record (no local recovery, no partial output). -/
theorem C9_validation_atomicity {Cfg : Type} (M : ConfigModel Cfg)
    (e d : Cfg) (md : Dict) (err : String)
    (h1 : merge_dicts (M.model_dump e) (M.model_dump d) = .ok md)
    (h2 : M.model_validate md = .error err) :
    merge_config_with_default M e d = .error err ∧
      ∀ c : Cfg, merge_config_with_default M e d ≠ .ok c := by
  have hmain : merge_config_with_default M e d = .error err := by
    show (merge_dicts (M.model_dump e) (M.model_dump d) >>=
      fun md => M.model_validate md) = .error err
    rw [h1, exceptOk_bind, h2]
  exact ⟨hmain, fun c hc => by rw [hmain] at hc; cases hc⟩

/-- C10: An absent `use_multi_db` key in the default graph config defaults
to `True`, so the downgrade rule does not fire: merged `use_multi_db` and
`user_name` keep the existing graph config's values (no carry-over). -/
theorem C10_absent_umd_defaults_true {e d egc dgc m : Dict}
    (he : graphCfgOf e = some egc) (hd : graphCfgOf d = some dgc)
    (habs : dictMem dgc "use_multi_db" = false)
    (hm : merge_dicts e d = .ok m) :
    ∃ mgc, graphCfgOf m = some mgc ∧
      dictGet? mgc "use_multi_db" = dictGet? egc "use_multi_db" ∧
      dictGet? mgc "user_name" = dictGet? egc "user_name" := by
  obtain ⟨b, _, _, hcfg⟩ := merge_graph_bridge he hd hm
  have hdef : truthy (dictGetD dgc "use_multi_db" (.bool true)) = true := by
    rw [dictGetD, dictMem_false_get? habs]
    rfl
  rw [mergedGraphConfig_of_default_multi hdef] at hcfg
  exact ⟨_, hcfg,
    graphLoop_get_protected egc dgc "use_multi_db" (by decide),
    graphLoop_get_protected egc dgc "user_name" (by decide)⟩

/-- C1 (amended): when the default graph config has `use_multi_db = false`
and the existing one's is truthy, the downgrade rule sets merged
`use_multi_db` to `false`, sets `user_name` to the value `db_name` has
*after the per-key overwrite loop* (i.e. the default's `db_name` when the
default graph config contains that key, otherwise the existing's), and
sets `db_name` to the default's `db_name`. -/
theorem C1_downgrade_amended {e d egc dgc m : Dict} (hnd : KeysNodup dgc)
    (he : graphCfgOf e = some egc) (hd : graphCfgOf d = some dgc)
    (hdef : dictGet? dgc "use_multi_db" = some (.bool false))
    (hex : truthy (dictGetD egc "use_multi_db" (.bool true)) = true)
    (hm : merge_dicts e d = .ok m) :
    ∃ mgc, graphCfgOf m = some mgc ∧
      dictGet? mgc "use_multi_db" = some (.bool false) ∧
      dictGet? mgc "user_name" =
        some (dictGetD (graphLoop egc dgc) "db_name" .null) ∧
      (dictMem dgc "db_name" = true →
        dictGet? mgc "user_name" = some (dictGetD dgc "db_name" .null)) ∧
      (dictMem dgc "db_name" = false →
        dictGet? mgc "user_name" = some (dictGetD egc "db_name" .null)) ∧
      dictGet? mgc "db_name" = some (dictGetD dgc "db_name" .null) := by
  obtain ⟨b, _, _, hcfg⟩ := merge_graph_bridge he hd hm
  have hdef' : truthy (dictGetD dgc "use_multi_db" (.bool true)) = false := by
    rw [dictGetD, hdef]; rfl
  have hmer : truthy
      (dictGetD (graphLoop egc dgc) "use_multi_db" (.bool true)) = true := by
    rw [dictGetD, graphLoop_get_protected egc dgc _ (by decide), ← dictGetD]
    exact hex
  have hloopdb : dictGetD (graphLoop egc dgc) "db_name" .null =
      if dictMem dgc "db_name" then dictGetD dgc "db_name" .null
      else dictGetD egc "db_name" .null := by
    rw [dictGetD, graphLoop_get_rest egc dgc "db_name" (by decide) hnd]
    by_cases hmem : dictMem dgc "db_name"
    · rw [if_pos hmem, if_pos hmem, dictGetD]
    · rw [if_neg hmem, if_neg hmem, dictGetD]
  refine ⟨_, hcfg, downgrade_get_umd hdef' hmer,
    downgrade_get_user_name hdef' hmer, ?_, ?_,
    downgrade_get_db_name hdef' hmer⟩
  · intro hmem
    rw [downgrade_get_user_name hdef' hmer, hloopdb, if_pos hmem]
  · intro hmem
    rw [downgrade_get_user_name hdef' hmer, hloopdb]
    simp [hmem]

/-- C3 (amended): when the default graph config has `use_multi_db = true`,
the merged graph config keeps the existing values of the protected fields
`auto_create`, `user_name`, `use_multi_db`; every *other* key takes the
default's value when the default graph config contains that key, and
otherwise retains the existing config's value. -/
theorem C3_graph_protected_amended {e d egc dgc m : Dict}
    (hnd : KeysNodup dgc)
    (he : graphCfgOf e = some egc) (hd : graphCfgOf d = some dgc)
    (hdef : dictGet? dgc "use_multi_db" = some (.bool true))
    (hm : merge_dicts e d = .ok m) :
    ∃ mgc, graphCfgOf m = some mgc ∧
      (∀ k ∈ preserve_graph_fields, dictGet? mgc k = dictGet? egc k) ∧
      (∀ k, k ∉ preserve_graph_fields →
        dictGet? mgc k =
          if dictMem dgc k then dictGet? dgc k else dictGet? egc k) := by
  obtain ⟨b, _, _, hcfg⟩ := merge_graph_bridge he hd hm
  have hdef' : truthy (dictGetD dgc "use_multi_db" (.bool true)) = true := by
    rw [dictGetD, hdef]; rfl
  rw [mergedGraphConfig_of_default_multi hdef'] at hcfg
  exact ⟨_, hcfg, fun k hk => graphLoop_get_protected egc dgc k hk,
    fun k hk => graphLoop_get_rest egc dgc k hk hnd⟩

/-- C4 (amended): when both graph configs have `use_multi_db = false`, the
derived-field rule takes its no-op branch, so `user_name` and
`use_multi_db` are unchanged from the existing config; `db_name`, however,
is still overwritten by the ordinary per-key loop with the default's
`db_name` whenever the default graph config contains that key. -/
theorem C4_noop_branch_amended {e d egc dgc m : Dict} (hnd : KeysNodup dgc)
    (he : graphCfgOf e = some egc) (hd : graphCfgOf d = some dgc)
    (hex : dictGet? egc "use_multi_db" = some (.bool false))
    (hdef : dictGet? dgc "use_multi_db" = some (.bool false))
    (hm : merge_dicts e d = .ok m) :
    ∃ mgc, graphCfgOf m = some mgc ∧
      dictGet? mgc "user_name" = dictGet? egc "user_name" ∧
      dictGet? mgc "use_multi_db" = some (.bool false) ∧
      dictGet? mgc "db_name" =
        if dictMem dgc "db_name" then dictGet? dgc "db_name"
        else dictGet? egc "db_name" := by
  obtain ⟨b, _, _, hcfg⟩ := merge_graph_bridge he hd hm
  have hdef' : truthy (dictGetD dgc "use_multi_db" (.bool true)) = false := by
    rw [dictGetD, hdef]; rfl
  have hmer : truthy
      (dictGetD (graphLoop egc dgc) "use_multi_db" (.bool true)) = false := by
    rw [dictGetD, graphLoop_get_protected egc dgc _ (by decide), hex]; rfl
  rw [mergedGraphConfig_noop hdef' hmer] at hcfg
  refine ⟨_, hcfg,
    graphLoop_get_protected egc dgc "user_name" (by decide), ?_,
    graphLoop_get_rest egc dgc "db_name" (by decide) hnd⟩
  rw [graphLoop_get_protected egc dgc "use_multi_db" (by decide), hex]

theorem eraseKey_dictSet_self (c : Dict) (k : String) (v : JVal) :
    eraseKey (dictSet c k v) k = eraseKey c k := by
  induction c with
  | nil => simp [eraseKey, dictSet]
  | cons kv rest ih =>
      by_cases h : kv.1 = k
      · rw [dictSet, if_pos h, eraseKey, if_pos rfl, eraseKey, if_pos h]
      · rw [dictSet, if_neg h, eraseKey, if_neg h, eraseKey, if_neg h, ih]

theorem eraseKey_dictSet_ne (c : Dict) {k k' : String} (v : JVal)
    (h : k ≠ k') :
    eraseKey (dictSet c k v) k' = dictSet (eraseKey c k') k v := by
  induction c with
  | nil => simp [eraseKey, dictSet, h]
  | cons kv rest ih =>
      by_cases hkv : kv.1 = k
      · have hk' : kv.1 ≠ k' := hkv ▸ h
        rw [dictSet, if_pos hkv, eraseKey, if_neg h, eraseKey, if_neg hk',
          dictSet, if_pos hkv]
      · rw [dictSet, if_neg hkv]
        by_cases hk' : kv.1 = k'
        · rw [eraseKey, if_pos hk', eraseKey, if_pos hk', ih]
        · rw [eraseKey, if_neg hk', eraseKey, if_neg hk', dictSet,
            if_neg hkv, ih]

theorem foldErase_dictSet_mem (L : List String) (b : Dict) (f : String)
    (v : JVal) (hf : f ∈ L) :
    L.foldl eraseKey (dictSet b f v) = L.foldl eraseKey b := by
  induction L generalizing b with
  | nil => cases hf
  | cons f0 rest ih =>
      by_cases h0 : f = f0
      · subst h0
        rw [List.foldl_cons, List.foldl_cons, eraseKey_dictSet_self]
      · rcases List.mem_cons.mp hf with h | hfr
        · exact absurd h h0
        · rw [List.foldl_cons, List.foldl_cons,
            eraseKey_dictSet_ne b v h0, ih _ hfr]

theorem foldErase_dictSet_notin (L : List String) (b : Dict) (f : String)
    (v : JVal) (hf : f ∉ L) :
    L.foldl eraseKey (dictSet b f v) = dictSet (L.foldl eraseKey b) f v := by
  induction L generalizing b with
  | nil => rfl
  | cons f0 rest ih =>
      simp only [List.mem_cons] at hf
      push_neg at hf
      rw [List.foldl_cons, List.foldl_cons, eraseKey_dictSet_ne b v hf.1,
        ih _ hf.2]

theorem dictGet?_eraseKey_ne (c : Dict) {k k' : String} (h : k' ≠ k) :
    dictGet? (eraseKey c k) k' = dictGet? c k' := by
  induction c with
  | nil => rfl
  | cons kv rest ih =>
      by_cases hkv : kv.1 = k
      · have hne : kv.1 ≠ k' := fun he => h (he ▸ hkv)
        rw [eraseKey, if_pos hkv, ih, dictGet?_cons, if_neg hne]
      · rw [eraseKey, if_neg hkv, dictGet?_cons, dictGet?_cons, ih]

theorem foldErase_get_notin (L : List String) (b : Dict) (k : String)
    (hk : k ∉ L) :
    dictGet? (L.foldl eraseKey b) k = dictGet? b k := by
  induction L generalizing b with
  | nil => rfl
  | cons f0 rest ih =>
      simp only [List.mem_cons] at hk
      push_neg at hk
      rw [List.foldl_cons, ih _ hk.2, dictGet?_eraseKey_ne b hk.1]

theorem mapAtKey_dictSet (key : String) (g : JVal → JVal) (c : Dict)
    (v w : JVal) (h : dictGet? c key = some w) (hg : g v = g w) :
    mapAtKey key g (dictSet c key v) = mapAtKey key g c := by
  induction c with
  | nil => cases h
  | cons kv rest ih =>
      by_cases hkv : kv.1 = key
      · have hw : kv.2 = w := by
          have h' := h
          rw [dictGet?_cons, if_pos hkv] at h'
          exact Option.some.inj h'
        rw [dictSet, if_pos hkv]
        unfold mapAtKey
        rw [List.map_cons, List.map_cons, if_pos rfl, if_pos hkv, hg, hw, hkv]
      · have hrest : dictGet? rest key = some w := by
          have h' := h
          rwa [dictGet?_cons, if_neg hkv] at h'
        rw [dictSet, if_neg hkv]
        unfold mapAtKey
        rw [List.map_cons, List.map_cons]
        have ih' := ih hrest
        unfold mapAtKey at ih'
        rw [ih']

theorem scrub_dictSet_preserved (b : Dict) (f : String) (v : JVal)
    (hf : f ∈ preserve_fields) :
    scrub (dictSet b f v) = scrub b := by
  unfold scrub
  rw [foldErase_dictSet_mem preserve_fields b f v hf]

theorem scrub_preserveFold (e b : Dict) :
    scrub (preserveFold e b) = scrub b := by
  unfold preserveFold
  have hgen : ∀ (L : List String), (∀ f ∈ L, f ∈ preserve_fields) →
      ∀ b : Dict, scrub (L.foldl
        (fun m field =>
          if dictMem e field then dictSet m field (dictGetD e field .null)
          else m) b) = scrub b := by
    intro L
    induction L with
    | nil => intro _ b; rfl
    | cons f0 rest ih =>
        intro hL b
        rw [List.foldl_cons, ih (fun f hf => hL f (List.mem_cons_of_mem _ hf))]
        by_cases hm : dictMem e f0
        · rw [if_pos hm,
            scrub_dictSet_preserved b f0 _ (hL f0 (List.mem_cons_self _ _))]
        · rw [if_neg hm]
  exact hgen preserve_fields (fun f hf => hf) b

/-- C5: Default propagation — after removing the four identity fields and
the `text_mem.config.graph_db` section, the merged dictionary is exactly
the default dictionary: every other field, top-level or nested, has the
default's value. -/
theorem C5_default_propagation {e d m : Dict}
    (hm : merge_dicts e d = .ok m) : scrub m = scrub d := by
  obtain ⟨p, hp, hr⟩ := merge_dicts_ok_cases hm
  have hbase : scrub (preserveFold e d) = scrub d := scrub_preserveFold e d
  cases p with
  | none => rw [restoreGraph_ok_none hr]; exact hbase
  | some pgd =>
      rcases restoreGraph_ok_some hr with ⟨_, rfl⟩ | ⟨tm, cfg, htm, hcfg, rfl⟩
      · exact hbase
      · rw [← hbase]
        unfold scrub
        rw [foldErase_dictSet_notin preserve_fields _ _ _ (by decide)]
        apply mapAtKey_dictSet "text_mem" scrubTM _ _ (.obj tm)
        · rw [foldErase_get_notin preserve_fields _ _ (by decide)]
          exact htm
        · show JVal.obj (mapAtKey "config" scrubCfg
              (dictSet tm "config"
                (.obj (dictSet cfg "graph_db" (.obj pgd))))) =
            JVal.obj (mapAtKey "config" scrubCfg tm)
          congr 1
          apply mapAtKey_dictSet "config" scrubCfg tm _ (.obj cfg) hcfg
          show JVal.obj (eraseKey (dictSet cfg "graph_db" (.obj pgd))
              "graph_db") = JVal.obj (eraseKey cfg "graph_db")
          congr 1
          exact eraseKey_dictSet_self cfg "graph_db" (.obj pgd)

/-! ## Counterexamples and witnesses -/

/-- C1 counterexample: on the spec's own example pair (existing graph
config `{use_multi_db: true, db_name: "A", user_name: "old"}`, default
`{use_multi_db: false, db_name: "B"}`) the merged `user_name` is `"B"`
(the default's `db_name`, already written by the per-key loop), not the
existing config's `db_name` `"A"` that the claim asserts. -/
theorem C1_counterexample :
    okThen (merge_dicts exC1e exC1d)
        (fun m => (graphCfgOf m).bind (fun g => dictGet? g "user_name")) =
      some (.str "B") ∧
    okThen (merge_dicts exC1e exC1d)
        (fun m => (graphCfgOf m).bind (fun g => dictGet? g "user_name")) ≠
      some (.str "A") ∧
    (graphCfgOf exC1e).bind (fun g => dictGet? g "db_name") =
      some (.str "A") ∧
    (graphCfgOf exC1d).bind (fun g => dictGet? g "db_name") =
      some (.str "B") := by
  have h : okThen (merge_dicts exC1e exC1d)
      (fun m => (graphCfgOf m).bind (fun g => dictGet? g "user_name")) =
      some (.str "B") := rfl
  exact ⟨h, by rw [h]; simp, rfl, rfl⟩

/-- C1 witness: the amended downgrade theorem applied to the spec's
example pair. -/
theorem C1_witness :
    ∃ mgc, graphCfgOf mC1 = some mgc ∧
      dictGet? mgc "use_multi_db" = some (.bool false) ∧
      dictGet? mgc "user_name" =
        some (dictGetD (graphLoop gcC1e gcC1d) "db_name" .null) ∧
      (dictMem gcC1d "db_name" = true →
        dictGet? mgc "user_name" = some (dictGetD gcC1d "db_name" .null)) ∧
      (dictMem gcC1d "db_name" = false →
        dictGet? mgc "user_name" = some (dictGetD gcC1e "db_name" .null)) ∧
      dictGet? mgc "db_name" = some (dictGetD gcC1d "db_name" .null) :=
  @C1_downgrade_amended exC1e exC1d gcC1e gcC1d mC1
    (by decide) rfl rfl rfl rfl rfl

/-- C2 witness: identity preservation evaluated on a concrete pair, at a
field present in the existing dictionary (`user_id`) and at one absent
from it (`cube_id`). -/
theorem C2_witness :
    dictGet? mC2 "user_id" =
      (if dictMem exC2e "user_id" then dictGet? exC2e "user_id"
        else dictGet? exC2d "user_id") ∧
    dictGet? mC2 "cube_id" =
      (if dictMem exC2e "cube_id" then dictGet? exC2e "cube_id"
        else dictGet? exC2d "cube_id") :=
  ⟨@C2_identity_preservation exC2e exC2d mC2 rfl "user_id" (by decide),
    @C2_identity_preservation exC2e exC2d mC2 rfl "cube_id" (by decide)⟩

/-- C3 counterexample: with both `use_multi_db: true`, the non-protected
field `only_in_existing` (present only in the existing graph config) is
retained in the merged graph config with the existing value `1`, while
the default has no value for it — so "every other graph-db field equals
the default's value" fails. -/
theorem C3_counterexample :
    okThen (merge_dicts exC3e exC3d)
        (fun m => (graphCfgOf m).bind
          (fun g => dictGet? g "only_in_existing")) = some (.num 1) ∧
    (graphCfgOf exC3d).bind (fun g => dictGet? g "only_in_existing") =
      none ∧
    some (JVal.num 1) ≠ (none : Option JVal) := by
  exact ⟨rfl, rfl, by simp⟩

/-- C3 witness: the amended protected-field theorem applied to the
concrete pair, instantiated at a protected key, a key present in the
default, and a key present only in the existing config. -/
theorem C3_witness :
    graphCfgOf mC3 = some gcC3m ∧
    dictGet? gcC3m "use_multi_db" = dictGet? gcC3e "use_multi_db" ∧
    dictGet? gcC3m "host" =
      (if dictMem gcC3d "host" then dictGet? gcC3d "host"
        else dictGet? gcC3e "host") ∧
    dictGet? gcC3m "only_in_existing" =
      (if dictMem gcC3d "only_in_existing"
        then dictGet? gcC3d "only_in_existing"
        else dictGet? gcC3e "only_in_existing") := by
  obtain ⟨mgc, h1, h2, h3⟩ :=
    @C3_graph_protected_amended exC3e exC3d gcC3e gcC3d mC3
      (by decide) rfl rfl rfl rfl
  obtain rfl : mgc = gcC3m :=
    Option.some.inj (h1.symm.trans (rfl : graphCfgOf mC3 = some gcC3m))
  exact ⟨h1, h2 "use_multi_db" (by decide), h3 "host" (by decide),
    h3 "only_in_existing" (by decide)⟩

/-- C4 counterexample: with both `use_multi_db: false` and differing
`db_name`s (existing `"A"`, default `"B"`), the merged `db_name` is the
default's `"B"`, not the existing config's `"A"` — the claim's "db_name
unchanged from the existing config" fails (only the derived-rule rewrite
is skipped; the per-key loop still overwrites `db_name`). -/
theorem C4_counterexample :
    okThen (merge_dicts exC4e exC4d)
        (fun m => (graphCfgOf m).bind (fun g => dictGet? g "db_name")) =
      some (.str "B") ∧
    (graphCfgOf exC4e).bind (fun g => dictGet? g "db_name") =
      some (.str "A") ∧
    some (JVal.str "B") ≠ some (JVal.str "A") := by
  exact ⟨rfl, rfl, by simp⟩

/-- C4 witness: the amended no-op-branch theorem applied to the concrete
pair. -/
theorem C4_witness :
    graphCfgOf mC4 = some gcC4m ∧
    dictGet? gcC4m "user_name" = dictGet? gcC4e "user_name" ∧
    dictGet? gcC4m "use_multi_db" = some (.bool false) ∧
    dictGet? gcC4m "db_name" =
      (if dictMem gcC4d "db_name" then dictGet? gcC4d "db_name"
        else dictGet? gcC4e "db_name") := by
  obtain ⟨mgc, h1, h2, h3, h4⟩ :=
    @C4_noop_branch_amended exC4e exC4d gcC4e gcC4d mC4
      (by decide) rfl rfl rfl rfl rfl
  obtain rfl : mgc = gcC4m :=
    Option.some.inj (h1.symm.trans (rfl : graphCfgOf mC4 = some gcC4m))
  exact ⟨h1, h2, h3, h4⟩

/-- C5 witness: default propagation evaluated on the C1 example pair
(whose merge rewrites the graph-db section and an identity field). -/
theorem C5_witness : scrub mC1 = scrub exC1d :=
  @C5_default_propagation exC1e exC1d mC1 rfl

/-- C6 witness: backend provenance evaluated on the C1 example pair. -/
theorem C6_witness :
    graphBackendOf mC1 = graphBackendOf exC1e ∧
      (graphBackendOf mC1).isSome = true :=
  @C6_backend_provenance exC1e exC1d gcC1e gcC1d mC1 rfl rfl rfl

/-- C7 witness: pass-through evaluated on a pair whose existing side has
no `text_mem.config.graph_db` path. -/
theorem C7_witness :
    dictGet? mC7 "text_mem" = dictGet? exC7d "text_mem" :=
  @C7_no_graph_passthrough exC7e exC7d mC7 (Or.inl rfl) rfl

/-- C9 witness: with a model whose validation always fails, the merge call
returns exactly the validation error and no record. -/
theorem C9_witness :
    merge_config_with_default rejectAllModel () () =
      .error "ValidationError" ∧
    merge_config_with_default rejectAllModel () () ≠ .ok () := by
  obtain ⟨h1, h2⟩ :=
    C9_validation_atomicity rejectAllModel () () [] "ValidationError" rfl rfl
  exact ⟨h1, h2 ()⟩

/-- C10 witness: the absent-`use_multi_db` theorem applied to the concrete
pair. -/
theorem C10_witness :
    graphCfgOf mC10 = some gcC10m ∧
    dictGet? gcC10m "use_multi_db" = dictGet? gcC10e "use_multi_db" ∧
    dictGet? gcC10m "user_name" = dictGet? gcC10e "user_name" := by
  obtain ⟨mgc, h1, h2, h3⟩ :=
    @C10_absent_umd_defaults_true exC10e exC10d gcC10e gcC10d mC10
      rfl rfl rfl rfl
  obtain rfl : mgc = gcC10m :=
    Option.some.inj (h1.symm.trans (rfl : graphCfgOf mC10 = some gcC10m))
  exact ⟨h1, h2, h3⟩

theorem frame_rfl {n : Nat} {h : Heap} : Frame n h h :=
  ⟨Nat.le_refl _, fun _ _ => rfl⟩

theorem frame_trans {n : Nat} {h1 h2 h3 : Heap}
    (a : Frame n h1 h2) (b : Frame n h2 h3) : Frame n h1 h3 :=
  ⟨Nat.le_trans a.1 b.1, fun x hx => (b.2 x hx).trans (a.2 x hx)⟩

theorem hspec_pure {α : Type} {n : Nat} {P : α → Prop} (a : α) (hp : P a) :
    HSpec n (pure a) P := by
  intro h hinv
  exact ⟨hinv, frame_rfl, fun x hx => by cases hx; exact hp⟩

theorem hspec_throw {α : Type} {n : Nat} {P : α → Prop} (s : String) :
    HSpec n (hmThrow s) P := by
  intro h hinv
  exact ⟨hinv, frame_rfl, fun x hx => by cases hx⟩

theorem hspec_bind {α β : Type} {n : Nat} {m : HM α} {f : α → HM β}
    {P : α → Prop} {Q : β → Prop}
    (h1 : HSpec n m P) (h2 : ∀ a, P a → HSpec n (f a) Q) :
    HSpec n (m >>= f) Q := by
  intro h hinv
  obtain ⟨hinv1, hfr1, hok1⟩ := h1 h hinv
  cases hm : m h with
  | mk r h' =>
      rw [hm] at hinv1 hfr1 hok1
      have hb : (m >>= f) h = (match ((r, h') : Except String α × Heap) with
          | (.ok a, h1) => f a h1
          | (.error s, h1) => (.error s, h1)) := by
        show (match m h with
          | (.ok a, h1) => f a h1
          | (.error s, h1) => (.error s, h1)) = _
        rw [hm]
      cases r with
      | error s =>
          rw [show (m >>= f) h = (.error s, h') from hb]
          exact ⟨hinv1, hfr1, fun x hx => by cases hx⟩
      | ok a =>
          obtain ⟨hinv2, hfr2, hok2⟩ := h2 a (hok1 a rfl) h' hinv1
          rw [show (m >>= f) h = f a h' from hb]
          exact ⟨hinv2, frame_trans hfr1 hfr2, hok2⟩

theorem hspec_weaken {α : Type} {n : Nat} {m : HM α} {P Q : α → Prop}
    (h : HSpec n m P) (hpq : ∀ a, P a → Q a) : HSpec n m Q := by
  intro hh hinv
  obtain ⟨h1, h2, h3⟩ := h hh hinv
  exact ⟨h1, h2, fun a ha => hpq a (h3 a ha)⟩

theorem hspec_ite {α : Type} {n : Nat} {c : Bool} {m1 m2 : HM α}
    {P : α → Prop} (h1 : c = true → HSpec n m1 P)
    (h2 : c = false → HSpec n m2 P) :
    HSpec n (if c then m1 else m2) P := by
  cases c
  · simpa using h2 rfl
  · simpa using h1 rfl

theorem hspec_halloc {n : Nat} (nd : Node) (hrefs : RefsGE n nd) :
    HSpec n (halloc nd) (fun a => n ≤ a) := by
  intro h hinv
  refine ⟨⟨Nat.le_succ_of_le hinv.1, ?_⟩, ⟨Nat.le_succ _, ?_⟩, ?_⟩
  · intro a nd' ha hmem
    by_cases he : a = h.next
    · simp only [halloc, he, if_pos rfl] at hmem
      cases hmem
      exact hrefs
    · simp only [halloc, if_neg he] at hmem
      exact hinv.2 a nd' ha hmem
  · intro a ha
    have : a ≠ h.next := Nat.ne_of_lt (Nat.lt_of_lt_of_le ha hinv.1)
    simp [halloc, this]
  · intro a ha
    cases ha
    exact hinv.1

theorem hspec_hread {n : Nat} (a : Nat) :
    HSpec n (hread a) (fun nd => n ≤ a → RefsGE n nd) := by
  intro h hinv
  have hdef : hread a h = (match h.mem a with
      | some nd => (.ok nd, h)
      | none => (.error "invalid reference", h)) := rfl
  cases hmem : h.mem a with
  | none =>
      rw [show hread a h = (.error "invalid reference", h) from by
        rw [hdef, hmem]]
      exact ⟨hinv, frame_rfl, fun x hx => by cases hx⟩
  | some nd =>
      rw [show hread a h = (.ok nd, h) from by rw [hdef, hmem]]
      exact ⟨hinv, frame_rfl, fun x hx => by
        cases hx
        exact fun ha => hinv.2 a nd ha hmem⟩

theorem hspec_hwrite {n : Nat} (a : Nat) (nd : Node) (ha : n ≤ a)
    (hrefs : RefsGE n nd) : HSpec n (hwrite a nd) (fun _ => True) := by
  intro h hinv
  refine ⟨⟨hinv.1, ?_⟩, ⟨Nat.le_refl _, ?_⟩, fun _ _ => trivial⟩
  · intro x nd' hx hmem
    by_cases he : x = a
    · simp only [hwrite, he, if_pos rfl] at hmem
      cases hmem
      exact hrefs
    · simp only [hwrite, if_neg he] at hmem
      exact hinv.2 x nd' hx hmem
  · intro x hx
    have : x ≠ a := Nat.ne_of_lt (Nat.lt_of_lt_of_le hx ha)
    simp [hwrite, this]

theorem nodeGet?_mem_val {nd : Node} {k : String} {v : HVal}
    (h : nodeGet? nd k = some v) : ∃ kv, kv ∈ nd ∧ kv.2 = v := by
  unfold nodeGet? at h
  cases hf : nd.find? (fun kv => kv.1 = k) with
  | none => rw [hf] at h; cases h
  | some kv =>
      rw [hf] at h
      exact ⟨kv, List.mem_of_find?_eq_some hf, Option.some.inj h⟩

theorem refsGE_nodeSet {n : Nat} {nd : Node} {k : String} {v : HVal}
    (hnd : RefsGE n nd) (hv : HValGE n v) : RefsGE n (nodeSet nd k v) := by
  induction nd with
  | nil =>
      intro kv hkv
      rcases List.mem_cons.mp hkv with rfl | hm
      · exact hv
      · cases hm
  | cons kv0 rest ih =>
      have hrest : RefsGE n rest :=
        fun kv hkv => hnd kv (List.mem_cons_of_mem _ hkv)
      by_cases h0 : kv0.1 = k
      · rw [nodeSet, if_pos h0]
        intro kv hkv
        rcases List.mem_cons.mp hkv with rfl | hm
        · exact hv
        · exact hrest kv hm
      · rw [nodeSet, if_neg h0]
        intro kv hkv
        rcases List.mem_cons.mp hkv with rfl | hm
        · exact hnd kv (List.mem_cons_self _ _)
        · exact ih hrest kv hm

theorem hspec_asDict {n : Nat} (v : HVal) :
    HSpec n (asDict v) (fun a => HValGE n v → n ≤ a) := by
  cases v with
  | ref a => exact hspec_pure a (fun hge => hge a rfl)
  | prim p => exact hspec_throw _

theorem hspec_getItemH {n : Nat} (a : Nat) (k : String) :
    HSpec n (getItemH a k) (fun v => n ≤ a → HValGE n v) := by
  unfold getItemH
  apply hspec_bind (hspec_hread a)
  intro nd hnd
  cases hg : nodeGet? nd k with
  | some v =>
      apply hspec_pure
      intro ha
      obtain ⟨kv, hmem, hv⟩ := nodeGet?_mem_val hg
      exact hv ▸ hnd ha kv hmem
  | none =>
      exact hspec_throw _

theorem hspec_getDH {n : Nat} (a : Nat) (k : String) (dflt : HVal)
    (hd : HValGE n dflt) :
    HSpec n (getDH a k dflt) (fun v => n ≤ a → HValGE n v) := by
  unfold getDH
  apply hspec_bind (hspec_hread a)
  intro nd hnd
  apply hspec_pure
  intro ha
  cases hg : nodeGet? nd k with
  | some v =>
      rw [Option.getD_some]
      obtain ⟨kv, hmem, hv⟩ := nodeGet?_mem_val hg
      exact hv ▸ hnd ha kv hmem
  | none => rw [Option.getD_none]; exact hd

theorem hspec_getConfigOrEmpty {n : Nat} (a : Nat) :
    HSpec n (getConfigOrEmpty a) (fun v => n ≤ a → HValGE n v) := by
  unfold getConfigOrEmpty
  apply hspec_bind (hspec_hread a)
  intro nd hnd
  cases hg : nodeGet? nd "config" with
  | some v =>
      apply hspec_pure
      intro ha
      obtain ⟨kv, hmem, hv⟩ := nodeGet?_mem_val hg
      exact hv ▸ hnd ha kv hmem
  | none =>
      apply hspec_bind (hspec_halloc [] (fun kv hkv => by cases hkv))
      intro b hb
      apply hspec_pure
      intro _ x hx
      cases hx
      exact hb

theorem hspec_truthyH {n : Nat} (v : HVal) :
    HSpec n (truthyH v) (fun _ => True) := by
  cases v with
  | prim p => exact hspec_pure _ trivial
  | ref a =>
      show HSpec n (hread a >>= fun nd => pure (!nd.isEmpty)) _
      apply hspec_bind (hspec_hread a)
      intro nd _
      exact hspec_pure _ trivial

theorem hspec_setKeyH {n : Nat} (a : Nat) (k : String) (v : HVal)
    (ha : n ≤ a) (hv : HValGE n v) :
    HSpec n (setKeyH a k v) (fun _ => True) := by
  unfold setKeyH
  apply hspec_bind (hspec_hread a)
  intro nd hnd
  exact hspec_hwrite a _ ha (refsGE_nodeSet (hnd ha) hv)

theorem hspec_forFields {n : Nat} (nd : Node)
    (f : String → HVal → HM Unit)
    (hf : ∀ kv ∈ nd, HSpec n (f kv.1 kv.2) (fun _ => True)) :
    HSpec n (forFields nd f) (fun _ => True) := by
  induction nd with
  | nil => exact hspec_pure _ trivial
  | cons kv rest ih =>
      show HSpec n (f kv.1 kv.2 >>= fun _ => forFields rest f) _
      apply hspec_bind (hf kv (List.mem_cons_self _ _))
      intro _ _
      exact ih (fun kv' h' => hf kv' (List.mem_cons_of_mem _ h'))

theorem hspec_forNames {n : Nat} (L : List String) (f : String → HM Unit)
    (hf : ∀ k ∈ L, HSpec n (f k) (fun _ => True)) :
    HSpec n (forNames L f) (fun _ => True) := by
  induction L with
  | nil => exact hspec_pure _ trivial
  | cons k rest ih =>
      show HSpec n (f k >>= fun _ => forNames rest f) _
      apply hspec_bind (hf k (List.mem_cons_self _ _))
      intro _ _
      exact ih (fun k' h' => hf k' (List.mem_cons_of_mem _ h'))

theorem copyFieldsWith_spec_of {n : Nat} {f : HVal → HM HVal}
    (hv : ∀ v, HSpec n (f v) (HValGE n)) :
    ∀ nd, HSpec n (copyFieldsWith f nd) (RefsGE n) := by
  intro nd
  induction nd with
  | nil => exact hspec_pure _ (fun kv hkv => by cases hkv)
  | cons kv rest ih =>
      show HSpec n (f kv.2 >>= fun v2 => copyFieldsWith f rest >>=
        fun rest2 => pure ((kv.1, v2) :: rest2)) _
      apply hspec_bind (hv kv.2)
      intro v2 hv2
      apply hspec_bind ih
      intro rest2 hrest2
      apply hspec_pure
      intro kv' hkv'
      rcases List.mem_cons.mp hkv' with rfl | hm
      · exact hv2
      · exact hrest2 kv' hm

theorem copyVal_spec (n : Nat) :
    ∀ F v, HSpec n (copyVal F v) (HValGE n) := by
  intro F
  induction F with
  | zero =>
      intro v
      cases v with
      | prim p => exact hspec_pure _ (fun x hx => by cases hx)
      | ref a => exact hspec_throw _
  | succ F ihF =>
      intro v
      cases v with
      | prim p => exact hspec_pure _ (fun x hx => by cases hx)
      | ref a =>
          rw [show copyVal (F + 1) (HVal.ref a) =
              (hread a >>= fun nd =>
                copyFieldsWith (copyVal F) nd >>= fun nd2 =>
                  halloc nd2 >>= fun a2 => pure (HVal.ref a2)) from rfl]
          apply hspec_bind (hspec_hread a)
          intro nd _
          apply hspec_bind (copyFieldsWith_spec_of ihF nd)
          intro nd2 hnd2
          apply hspec_bind (hspec_halloc nd2 hnd2)
          intro a2 ha2
          apply hspec_pure
          intro x hx
          cases hx
          exact ha2

theorem hspec_readTreeM {n : Nat} (F a : Nat) :
    HSpec n (readTreeM F a) (fun _ => True) := by
  intro h hinv
  have hdef : readTreeM F a h = (match readVal h F (.ref a) with
      | some v => (.ok v, h)
      | none => (.error "read failed", h)) := rfl
  cases hr : readVal h F (.ref a) with
  | some v =>
      rw [show readTreeM F a h = (.ok v, h) from by rw [hdef, hr]]
      exact ⟨hinv, frame_rfl, fun _ _ => trivial⟩
  | none =>
      rw [show readTreeM F a h = (.error "read failed", h) from by
        rw [hdef, hr]]
      exact ⟨hinv, frame_rfl, fun _ _ => trivial⟩

/-- A prim value never holds a reference. -/
theorem hvalGE_prim {n : Nat} (v : JVal) : HValGE n (.prim v) :=
  fun _ hx => by cases hx

theorem downgradeRuleImp_spec (n : Nat) (mgc dgc : Nat)
    (hmgc : n ≤ mgc) (hdgc : n ≤ dgc) :
    HSpec n (downgradeRuleImp mgc dgc) (fun _ => True) := by
  unfold downgradeRuleImp
  apply hspec_bind (hspec_getDH dgc "use_multi_db" _ (hvalGE_prim _))
  intro dumv _
  apply hspec_bind (hspec_truthyH dumv)
  intro dflag _
  apply hspec_ite
  · intro _
    apply hspec_bind (hspec_getDH mgc "use_multi_db" _ (hvalGE_prim _))
    intro mumv _
    apply hspec_bind (hspec_truthyH mumv)
    intro mflag _
    apply hspec_ite
    · intro _
      apply hspec_bind
        (hspec_setKeyH mgc "use_multi_db" _ hmgc (hvalGE_prim _))
      intro _ _
      apply hspec_bind (hspec_getDH mgc "db_name" _ (hvalGE_prim _))
      intro dbv hdbv
      apply hspec_bind (hspec_setKeyH mgc "user_name" dbv hmgc (hdbv hmgc))
      intro _ _
      apply hspec_bind (hspec_getDH dgc "db_name" _ (hvalGE_prim _))
      intro dbv2 hdbv2
      exact hspec_setKeyH mgc "db_name" dbv2 hmgc (hdbv2 hdgc)
    · intro _
      exact hspec_pure _ trivial
  · intro _
    exact hspec_pure _ trivial

theorem computeGraphImp_spec (n F : Nat) (ed dd : Nat) (edN ddN : Node)
    (hed : n ≤ ed) (hdd : n ≤ dd) :
    HSpec n (computeGraphImp F ed dd edN ddN)
      (fun o => ∀ x, o = some x → n ≤ x) := by
  unfold computeGraphImp
  apply hspec_ite
  · intro _
    apply hspec_bind (hspec_getItemH ed "text_mem")
    intro tmv htmv
    apply hspec_bind (hspec_asDict tmv)
    intro tma htma
    have htm : n ≤ tma := htma (htmv hed)
    apply hspec_bind (hspec_getConfigOrEmpty tma)
    intro etcv hetcv
    apply hspec_bind (hspec_asDict etcv)
    intro etc hetc'
    have hetc : n ≤ etc := hetc' (hetcv htm)
    apply hspec_bind (hspec_getItemH dd "text_mem")
    intro tmv2 htmv2
    apply hspec_bind (hspec_asDict tmv2)
    intro tma2 htma2
    have htm2 : n ≤ tma2 := htma2 (htmv2 hdd)
    apply hspec_bind (hspec_getConfigOrEmpty tma2)
    intro dtcv hdtcv
    apply hspec_bind (hspec_asDict dtcv)
    intro dtc hdtc'
    have hdtc : n ≤ dtc := hdtc' (hdtcv htm2)
    apply hspec_bind (hspec_hread etc)
    intro etcN _
    apply hspec_bind (hspec_hread dtc)
    intro dtcN _
    apply hspec_ite
    · intro _
      apply hspec_bind (hspec_getItemH etc "graph_db")
      intro egdv hegdv
      apply hspec_bind (hspec_asDict egdv)
      intro egd hegd'
      have hegd : n ≤ egd := hegd' (hegdv hetc)
      apply hspec_bind (hspec_getItemH egd "config")
      intro egcv hegcv
      apply hspec_bind (hspec_asDict egcv)
      intro egc hegc'
      apply hspec_bind (hspec_getItemH dtc "graph_db")
      intro dgdv hdgdv
      apply hspec_bind (hspec_asDict dgdv)
      intro dgd hdgd'
      have hdgd : n ≤ dgd := hdgd' (hdgdv hdtc)
      apply hspec_bind (hspec_getItemH dgd "config")
      intro dgcv hdgcv
      apply hspec_bind (hspec_asDict dgcv)
      intro dgc hdgc'
      have hdgc : n ≤ dgc := hdgc' (hdgcv hdgd)
      apply hspec_bind (copyVal_spec n F (.ref egc))
      intro mgcv hmgcv
      apply hspec_bind (hspec_asDict mgcv)
      intro mgc hmgc'
      have hmgc : n ≤ mgc := hmgc' hmgcv
      apply hspec_bind (hspec_hread dgc)
      intro dgcN hdgcN
      have hloop : ∀ kv ∈ dgcN,
          HSpec n (graphLoopBodyImp mgc kv.1 kv.2) (fun _ => True) := by
        intro kv hkv
        unfold graphLoopBodyImp
        by_cases hk : kv.1 ∈ preserve_graph_fields
        · rw [if_pos hk]
          exact hspec_pure _ trivial
        · rw [if_neg hk]
          exact hspec_setKeyH mgc kv.1 kv.2 hmgc (hdgcN hdgc kv hkv)
      apply hspec_bind (hspec_forFields dgcN _ hloop)
      intro _ _
      apply hspec_bind (downgradeRuleImp_spec n mgc dgc hmgc hdgc)
      intro _ _
      apply hspec_bind (hspec_getItemH egd "backend")
      intro backend hbackend
      have hpgdnode : RefsGE n [("backend", backend), ("config", .ref mgc)] := by
        intro kv hkv
        rcases List.mem_cons.mp hkv with rfl | hkv2
        · exact hbackend hegd
        · rcases List.mem_cons.mp hkv2 with rfl | hkv3
          · intro x hx
            cases hx
            exact hmgc
          · cases hkv3
      apply hspec_bind (hspec_halloc _ hpgdnode)
      intro pa hpa
      apply hspec_pure
      intro x hx
      cases hx
      exact hpa
    · intro _
      exact hspec_pure _ (fun x hx => by cases hx)
  · intro _
    exact hspec_pure _ (fun x hx => by cases hx)

theorem restoreGraphImp_spec (n : Nat) (md : Nat) (pgd? : Option Nat)
    (hmd : n ≤ md) (hp : ∀ x, pgd? = some x → n ≤ x) :
    HSpec n (restoreGraphImp md pgd?) (fun _ => True) := by
  unfold restoreGraphImp
  cases pgd? with
  | none => exact hspec_pure _ trivial
  | some pa =>
      apply hspec_bind (hspec_hread md)
      intro mdN _
      apply hspec_ite
      · intro _
        apply hspec_bind (hspec_getItemH md "text_mem")
        intro tmv3 htmv3
        apply hspec_bind (hspec_asDict tmv3)
        intro tm htm'
        have htm3 : n ≤ tm := htm' (htmv3 hmd)
        apply hspec_bind (hspec_getItemH tm "config")
        intro cfgv hcfgv
        apply hspec_bind (hspec_asDict cfgv)
        intro cfg hcfg'
        have hcfg : n ≤ cfg := hcfg' (hcfgv htm3)
        exact hspec_setKeyH cfg "graph_db" (.ref pa) hcfg
          (fun x hx => by cases hx; exact hp pa rfl)
      · intro _
        exact hspec_pure _ trivial

/-- The heap-level merge preserves the invariant and never writes below
the baseline: every mutation targets a dictionary allocated during the
call itself. -/
theorem mergeImp_spec (n F : Nat) (validate : JVal → Except String Unit)
    (ae ad : Nat) :
    HSpec n (mergeImp F validate ae ad) (fun _ => True) := by
  unfold mergeImp
  apply hspec_bind (copyVal_spec n F (.ref ae))
  intro edv hedv
  apply hspec_bind (hspec_asDict edv)
  intro ed hed'
  have hed : n ≤ ed := hed' hedv
  apply hspec_bind (copyVal_spec n F (.ref ad))
  intro ddv hddv
  apply hspec_bind (hspec_asDict ddv)
  intro dd hdd'
  have hdd : n ≤ dd := hdd' hddv
  apply hspec_bind (hspec_hread ed)
  intro edN _
  apply hspec_bind (hspec_hread dd)
  intro ddN _
  apply hspec_bind (computeGraphImp_spec n F ed dd edN ddN hed hdd)
  intro pgd? hpgd
  apply hspec_bind (copyVal_spec n F (.ref dd))
  intro mdv hmdv
  apply hspec_bind (hspec_asDict mdv)
  intro md hmd'
  have hmd : n ≤ md := hmd' hmdv
  have hnames : ∀ k ∈ preserve_fields,
      HSpec n (preserveBodyImp ed md k) (fun _ => True) := by
    intro k _
    unfold preserveBodyImp
    apply hspec_bind (hspec_hread ed)
    intro edN2 hedN2
    cases hgv : nodeGet? edN2 k with
    | some v =>
        obtain ⟨kv, hmem, hv⟩ := nodeGet?_mem_val hgv
        exact hspec_setKeyH md k v hmd (hv ▸ hedN2 hed kv hmem)
    | none => exact hspec_pure _ trivial
  apply hspec_bind (hspec_forNames preserve_fields _ hnames)
  intro _ _
  apply hspec_bind (restoreGraphImp_spec n md pgd? hmd hpgd)
  intro _ _
  apply hspec_bind (hspec_readTreeM F md)
  intro mtree _
  cases validate mtree with
  | ok u => exact hspec_pure _ trivial
  | error s => exact hspec_throw _

/-- Read-backs agree on two heaps that coincide below `n`, for trees whose
references stay below `n`. -/
theorem readFieldsWith_congr_of {n : Nat} {g g' : HVal → Option JVal}
    (hv : ∀ v, (∀ r, v = HVal.ref r → r < n) → g' v = g v) :
    ∀ nd, (∀ kv ∈ nd, ∀ r, kv.2 = HVal.ref r → r < n) →
      readFieldsWith g' nd = readFieldsWith g nd := by
  intro nd
  induction nd with
  | nil => intro _; rfl
  | cons kv rest ih =>
      intro hnd
      show (do
        let jv ← g' kv.2
        let jrest ← readFieldsWith g' rest
        pure ((kv.1, jv) :: jrest)) = _
      rw [hv kv.2 (hnd kv (List.mem_cons_self _ _)),
        ih (fun kv' h' => hnd kv' (List.mem_cons_of_mem _ h'))]
      rfl

theorem read_frame (n : Nat) (h h' : Heap)
    (hcl : ∀ a nd, a < n → h.mem a = some nd →
      ∀ kv ∈ nd, ∀ r, kv.2 = HVal.ref r → r < n)
    (hfr : ∀ a, a < n → h'.mem a = h.mem a) :
    ∀ F, ∀ v, (∀ r, v = HVal.ref r → r < n) →
      readVal h' F v = readVal h F v := by
  intro F
  induction F with
  | zero =>
      intro v _
      cases v with
      | prim p => simp [readVal]
      | ref a => simp [readVal]
  | succ F ihF =>
      intro v hval
      cases v with
      | prim p => simp [readVal]
      | ref a =>
          have ha : a < n := hval a rfl
          simp only [readVal]
          rw [hfr a ha]
          cases hm : h.mem a with
          | none => rfl
          | some nd =>
              show Option.map JVal.obj
                  (readFieldsWith (readVal h' F) nd) =
                Option.map JVal.obj (readFieldsWith (readVal h F) nd)
              rw [readFieldsWith_congr_of ihF nd (hcl a nd ha hm)]

theorem wfHeap_freshInv {h : Heap} (hwf : WfHeap h) :
    FreshInv h.next h := by
  refine ⟨Nat.le_refl _, ?_⟩
  intro a nd ha hmem
  rw [hwf.1 a ha] at hmem
  cases hmem

/-- C8: Non-mutation of the inputs — whether the heap-level merge returns
a record or fails, the heap it leaves behind reads back both input trees
deep-equal to their pre-call values (at every read depth `G`): the merge
mutates only dictionaries it freshly dumped, deep-copied or allocated
itself. -/
theorem C8_non_mutation (F : Nat) (validate : JVal → Except String Unit)
    (ae ad : Nat) (h0 : Heap) (hwf : WfHeap h0)
    (hae : ae < h0.next) (had : ad < h0.next) :
    ∀ G, readVal (mergeImp F validate ae ad h0).2 G (.ref ae) =
        readVal h0 G (.ref ae) ∧
      readVal (mergeImp F validate ae ad h0).2 G (.ref ad) =
        readVal h0 G (.ref ad) := by
  intro G
  obtain ⟨_, hfr, _⟩ :=
    mergeImp_spec h0.next F validate ae ad h0 (wfHeap_freshInv hwf)
  have hrd := read_frame h0.next h0 (mergeImp F validate ae ad h0).2
    (fun a nd _ hmem => hwf.2 a nd hmem) hfr.2 G
  exact ⟨hrd (.ref ae) (fun r hr => by cases hr; exact hae),
    hrd (.ref ad) (fun r hr => by cases hr; exact had)⟩

/-- A node list passing the decidable `wfCheck` yields a well-formed
heap. -/
theorem wfHeap_of_wfCheck (nodes : List Node)
    (hc : wfCheck nodes = true) : WfHeap (heapOfNodes nodes) := by
  constructor
  · intro a ha
    exact List.get?_eq_none.mpr ha
  · intro a nd hmem kv hkv r hr
    have hnd : nd ∈ nodes := List.get?_mem hmem
    have hall := (List.all_eq_true.mp hc) nd hnd
    have hkv2 := (List.all_eq_true.mp hall) kv hkv
    rw [hr] at hkv2
    exact of_decide_eq_true hkv2

theorem h8_wf : WfHeap h8 := wfHeap_of_wfCheck h8nodes (by decide)

set_option maxHeartbeats 1600000 in
/-- Heap-vs-pure cross-check, checked by kernel evaluation: the heap
records at addresses 0 and 1 of `h8` read back as exactly the pure-level
`exC1e` and `exC1d`; the graph-branch computation (`computeGraphImp`, the
per-key overwrite loop with its in-place writes, the downgrade rule's
three in-place writes, and the `preserved_graph_db` allocation) run on
those trees reads back as exactly the pure embedding's
`preservedGraphDb exC1e exC1d`. -/
theorem computeGraphImp_agrees_on_example :
    readVal h8 12 (.ref 0) = some (.obj exC1e) ∧
    readVal h8 12 (.ref 1) = some (.obj exC1d) ∧
    (match computeGraphImp 12 0 1
        [("user_id", .prim (.str "alice")), ("text_mem", .ref 2)]
        [("user_id", .prim (.str "u0")), ("text_mem", .ref 3)] h8 with
      | (.ok (some pa), h2) => readVal h2 12 (.ref pa)
      | _ => none) =
      (match preservedGraphDb exC1e exC1d with
        | .ok (some p) => some (.obj p)
        | _ => none) :=
  ⟨rfl, rfl, rfl⟩

set_option maxHeartbeats 1600000 in
/-- Heap-vs-pure cross-check of the whole pipeline, checked by kernel
evaluation: on the flat C2 example (model_dump copies, the identity-field
loop's in-place writes, read-back, validation) the heap-level merge
returns a dictionary reading back as exactly the pure embedding's
`merge_dicts exC2e exC2d` result, and with a rejecting validator the call
fails with exactly that validator's error. -/
theorem mergeImp_agrees_on_flat_example :
    runMergeImp 6 okValidate 0 1 hflat =
      (match merge_dicts exC2e exC2d with
        | .ok m => some (.obj m)
        | .error _ => none) ∧
    runMergeImp 6 okValidate 0 1 hflat = some (.obj mC2) ∧
    (mergeImp 6 rejectValidate 0 1 hflat).1 = .error "ValidationError" :=
  ⟨rfl, rfl, rfl⟩

/-- C8 witness: on a concrete heap holding the two input records of the
C1 example — an input on which the merge performs every kind of in-place
write — both inputs read back unchanged after the call, on the successful
run and on the run whose validation fails. -/
theorem C8_witness :
    (readVal (mergeImp 12 okValidate 0 1 h8).2 8 (.ref 0) =
        readVal h8 8 (.ref 0) ∧
      readVal (mergeImp 12 okValidate 0 1 h8).2 8 (.ref 1) =
        readVal h8 8 (.ref 1)) ∧
    (readVal (mergeImp 12 rejectValidate 0 1 h8).2 8 (.ref 0) =
        readVal h8 8 (.ref 0) ∧
      readVal (mergeImp 12 rejectValidate 0 1 h8).2 8 (.ref 1) =
        readVal h8 8 (.ref 1)) :=
  ⟨C8_non_mutation 12 okValidate 0 1 h8 h8_wf (by decide) (by decide) 8,
    C8_non_mutation 12 rejectValidate 0 1 h8 h8_wf (by decide) (by decide) 8⟩

end MemCube
